import Mathlib

/-!
# go-acl: portable ACL model and its conversion to and from libacl objects

A shallow embedding of `src/include/go-acl.h` and `src/src/linux.c`.

* The portable model (`go_acl_entry_t`, `go_acl`) is embedded as plain data.
* The native library is outside the repository.  The decoder only observes it
  through the statuses and values its calls return, so a native entry handle is
  embedded as the record of those results (`acl_entry_t`) and a native ACL
  object as the sequence of results of its successive `acl_get_entry` calls
  (`acl_t`).  Any behaviour of the library, failing calls included, is a value
  of these types.
* The encoder drives the library; its calls are answered by `libacl`, a record
  of the statuses the library returns, and act on `acl_entry_obj`, the state of
  a native entry.  `libacl_iterate` is the library's own reading of an object
  built that way (creation order, every call succeeding).
* `malloc`, `free`, `acl_free` and `acl_set_file` are recorded in a `heap`:
  a bump allocator together with the trace of release events.
-/

namespace GoAcl

/-! ## Portable model (`include/go-acl.h`) -/

/-- The C enum `go_acl_tag_t`; a C enum is an int. -/
abbrev go_acl_tag_t := Int

def TAG_UNDEFINED : go_acl_tag_t := 0
def TAG_USER_OBJ : go_acl_tag_t := 1
def TAG_USER : go_acl_tag_t := 2
def TAG_GROUP_OBJ : go_acl_tag_t := 3
def TAG_GROUP : go_acl_tag_t := 4
def TAG_MASK : go_acl_tag_t := 5
def TAG_OTHER : go_acl_tag_t := 6

/-- The struct `go_acl_entry_t`: `tag`, `unsigned long qualifier`, `int perms`. -/
structure go_acl_entry_t where
  tag : go_acl_tag_t
  qualifier : Nat
  perms : Int
deriving DecidableEq, Repr

/-- The struct behind `go_acl_t`: `num_entries` and the block `entries` points to.
The count is a non-negative `int`; the block is the list of its slots. -/
structure go_acl where
  num_entries : Nat
  entries : List go_acl_entry_t
deriving DecidableEq, Repr

/-- The six tags that denote a real entry. -/
def real_tag (t : go_acl_tag_t) : Prop :=
  t = TAG_USER_OBJ ∨ t = TAG_USER ∨ t = TAG_GROUP_OBJ ∨ t = TAG_GROUP ∨ t = TAG_MASK ∨ t = TAG_OTHER

instance (t : go_acl_tag_t) : Decidable (real_tag t) := by
  unfold real_tag; infer_instance

/-! ## Native side as seen through `<sys/acl.h>` -/

/-- The native `acl_tag_t`, with the values of Linux `<sys/acl.h>`. -/
abbrev acl_tag_t := Int

def ACL_UNDEFINED_TAG : acl_tag_t := 0
def ACL_USER_OBJ : acl_tag_t := 1
def ACL_USER : acl_tag_t := 2
def ACL_GROUP_OBJ : acl_tag_t := 4
def ACL_GROUP : acl_tag_t := 8
def ACL_MASK : acl_tag_t := 16
def ACL_OTHER : acl_tag_t := 32

/-- The three native permissions `acl_perm_t` used by the converter. -/
inductive acl_perm_t where
  | ACL_READ
  | ACL_WRITE
  | ACL_EXECUTE
deriving DecidableEq, Repr

/-- The two ACL kinds `acl_type_t`. -/
inductive acl_type_t where
  | ACL_TYPE_ACCESS
  | ACL_TYPE_DEFAULT
deriving DecidableEq, Repr

/-- A native entry handle as the decoder observes it: the status and value each
accessor call returns.  `qualifier` is what `acl_get_qualifier` points to, `none`
being the NULL pointer. -/
structure acl_entry_t where
  tag_status : Int
  tag : acl_tag_t
  permset_status : Int
  perm_read : Int
  perm_write : Int
  perm_execute : Int
  qualifier : Option Nat
deriving DecidableEq, Repr

/-- The call `acl_get_perm(perms, p)` on the permission set of `entry`. -/
def acl_get_perm (entry : acl_entry_t) (p : acl_perm_t) : Int :=
  match p with
  | .ACL_READ => entry.perm_read
  | .ACL_WRITE => entry.perm_write
  | .ACL_EXECUTE => entry.perm_execute

/-- The NULL entry handle: every accessor call on it fails. -/
def acl_entry_null : acl_entry_t :=
  { tag_status := -1, tag := 0, permset_status := -1, perm_read := -1,
    perm_write := -1, perm_execute := -1, qualifier := none }

/-- One `acl_get_entry(acl, ACL_NEXT_ENTRY, &entry)` call: the status returned and
the handle the variable `entry` holds after the call. -/
structure get_entry_result where
  code : Int
  entry : acl_entry_t
deriving DecidableEq, Repr

/-- A native ACL object as the decoder observes it: the results of its successive
`acl_get_entry` calls.  Past the end of the sequence the object reports
"no more entries" (status 0).  Whenever the library returns status 0 it stores
NULL in `*entry_p`, so the handle of a status-0 result is the NULL handle. -/
abbrev acl_t := List get_entry_result

/-- The next `acl_get_entry` call on `acl` and the object afterwards.  A call that
returns status 0 leaves the NULL handle in `entry`. -/
def acl_get_entry : acl_t → get_entry_result × acl_t
  | [] => (⟨0, acl_entry_null⟩, [])
  | r :: rs => (if r.code = 0 then ⟨0, acl_entry_null⟩ else r, rs)

/-- The answers of `malloc` inside the decoder and `go_acl_create`: whether the
container is obtained, and the entries block, `none` for NULL or the initial
(indeterminate) content of each slot of the fresh block. -/
structure allocator where
  go_acl : Bool
  entries : Option (Nat → go_acl_entry_t)

/-- A fresh block of `n` slots with the content the allocator left in it. -/
def fresh_block (g : Nat → go_acl_entry_t) (n : Nat) : List go_acl_entry_t :=
  (List.range n).map g

/-! ## Portable model operations (`linux.c` 17-23, 281-293) -/

/-- Function `go_acl_get_entry`: `go_acl->entries[index]`; `none` outside the block,
where the C read is undefined. -/
def go_acl_get_entry (a : go_acl) (index : Nat) : Option go_acl_entry_t :=
  a.entries[index]?

/-- Function `go_acl_put_entry`: `go_acl->entries[index] = entry`; `none` outside the
block, where the C write is undefined. -/
def go_acl_put_entry (a : go_acl) (index : Nat) (entry : go_acl_entry_t) : Option go_acl :=
  if index < a.entries.length then
    some { a with entries := a.entries.set index entry }
  else none

/-- Function `go_acl_create`: the container, the count, then the uninitialised block. -/
def go_acl_create (m : allocator) (num_entries : Nat) : Option go_acl :=
  if m.go_acl = false then none
  else
    match m.entries with
    | none => none
    | some g => some { num_entries := num_entries, entries := fresh_block g num_entries }

/-- A caller filling an ACL: `go_acl_put_entry(acl, i, e i)` for each `i` of
`order`, in that order. -/
def put_entries (e : Nat → go_acl_entry_t) : List Nat → go_acl → Option go_acl
  | [], a => some a
  | i :: rest, a =>
    match go_acl_put_entry a i (e i) with
    | none => none
    | some a' => put_entries e rest a'

/-! ## Decoding (`linux.c` 41-49, 77-183) -/

/-- Function `go_acl_convert_entry_from_native`: the status returned and the content of
`*go_entry_p` afterwards; `go_entry` is the content of the slot before. -/
def go_acl_convert_entry_from_native (entry : acl_entry_t) (go_entry : go_acl_entry_t) :
    Int × go_acl_entry_t :=
  if entry.tag_status < 0 then (entry.tag_status, go_entry)
  else
    let tag := entry.tag
    let go_entry : go_acl_entry_t :=
      if tag = ACL_USER_OBJ then { go_entry with tag := TAG_USER_OBJ }
      else if tag = ACL_USER then { go_entry with tag := TAG_USER }
      else if tag = ACL_GROUP_OBJ then { go_entry with tag := TAG_GROUP_OBJ }
      else if tag = ACL_GROUP then { go_entry with tag := TAG_GROUP }
      else if tag = ACL_MASK then { go_entry with tag := TAG_MASK }
      else if tag = ACL_OTHER then { go_entry with tag := TAG_OTHER }
      else go_entry
    if entry.permset_status < 0 then (entry.permset_status, go_entry)
    else
      let go_entry : go_acl_entry_t := { go_entry with perms := 0 }
      let code := acl_get_perm entry .ACL_READ
      if code < 0 then (code, go_entry)
      else
        let go_entry : go_acl_entry_t :=
          if code > 0 then { go_entry with perms := Int.lor go_entry.perms 4 } else go_entry
        let code := acl_get_perm entry .ACL_WRITE
        if code < 0 then (code, go_entry)
        else
          let go_entry : go_acl_entry_t :=
            if code > 0 then { go_entry with perms := Int.lor go_entry.perms 2 } else go_entry
          let code := acl_get_perm entry .ACL_EXECUTE
          if code < 0 then (code, go_entry)
          else
            let go_entry : go_acl_entry_t :=
              if code > 0 then { go_entry with perms := Int.lor go_entry.perms 1 } else go_entry
            let go_entry : go_acl_entry_t := { go_entry with qualifier := 0 }
            if go_entry.tag = TAG_USER ∨ go_entry.tag = TAG_GROUP then
              match entry.qualifier with
              | none => (-1, go_entry)
              | some id => (0, { go_entry with qualifier := id })
            else (0, go_entry)

/-- The counting loop of `go_acl_convert_from_native` (lines 85-94), started with
`num_entries = n`: `none` when a call returns a negative status, otherwise the
count and the object after the call that returned 0. -/
def count_entries : acl_t → Nat → Option (Nat × acl_t)
  | [], n => some (n, [])
  | r :: rs, n =>
    if r.code = 0 then some (n, rs)
    else if r.code < 0 then none
    else count_entries rs (n + 1)

/-- The fill loop of `go_acl_convert_from_native` (lines 101-117) with `k`
iterations left, at index `i`: `none` when it frees everything and returns NULL,
otherwise the block it filled.  The block always has a slot `i` here (it was
allocated with `num_entries` slots); the `none` branch of the lookup is never taken. -/
def fill_entries : Nat → Nat → acl_t → List go_acl_entry_t → Option (List go_acl_entry_t)
  | 0, _, _, entries => some entries
  | k + 1, i, acl, entries =>
    let r := (acl_get_entry acl).1
    let acl := (acl_get_entry acl).2
    if r.code < 0 then none
    else
      match entries[i]? with
      | none => none
      | some slot =>
        let res := go_acl_convert_entry_from_native r.entry slot
        if res.1 < 0 then none
        else fill_entries k (i + 1) acl (entries.set i res.2)

/-- Function `go_acl_convert_from_native`: `none` is the NULL result. -/
def go_acl_convert_from_native (m : allocator) (acl : acl_t) : Option go_acl :=
  if m.go_acl = false then none
  else
    match count_entries acl 0 with
    | none => none
    | some (n, acl) =>
      match m.entries with
      | none => none
      | some g =>
        match fill_entries n 0 acl (fresh_block g n) with
        | none => none
        | some entries => some { num_entries := n, entries := entries }

/-- Function `go_acl_get_file_impl`; `acl_get_file` is the native file-get call. -/
def go_acl_get_file_impl (m : allocator) (acl_get_file : String → acl_type_t → Option acl_t)
    (path : String) (type : acl_type_t) : Option go_acl :=
  match acl_get_file path type with
  | none => none
  | some acl => go_acl_convert_from_native m acl

/-- Function `go_acl_get_file`. -/
def go_acl_get_file (m : allocator) (acl_get_file : String → acl_type_t → Option acl_t)
    (path : String) : Option go_acl :=
  go_acl_get_file_impl m acl_get_file path .ACL_TYPE_ACCESS

/-- Function `go_acl_get_file_default`. -/
def go_acl_get_file_default (m : allocator) (acl_get_file : String → acl_type_t → Option acl_t)
    (path : String) : Option go_acl :=
  go_acl_get_file_impl m acl_get_file path .ACL_TYPE_DEFAULT

/-! ## Encoding (`linux.c` 51-75, 185-279) -/

/-- A pointer returned by `malloc(sizeof(id_t))`: its address and the value the
cell holds (the cell is written once, right after the allocation). -/
structure id_cell where
  addr : Nat
  val : Nat
deriving DecidableEq, Repr

/-- The state of a native entry inside a native ACL object: its tag, its
permission set and the qualifier pointer installed by `acl_set_qualifier`. -/
structure acl_entry_obj where
  tag : acl_tag_t
  read : Bool
  write : Bool
  execute : Bool
  qualifier : Option id_cell
deriving DecidableEq, Repr

/-- The entry `acl_create_entry` hands out: no tag, empty permission set, no
qualifier. -/
def acl_entry_fresh : acl_entry_obj :=
  { tag := ACL_UNDEFINED_TAG, read := false, write := false, execute := false, qualifier := none }

/-- What the library answers to the calls made while one entry is encoded: the
status of each native call, whether `malloc(sizeof(id_t))` succeeds, and the
indeterminate initial value of the local `code` of
`go_acl_convert_entry_to_native`. -/
structure entry_calls where
  create_entry : Int
  set_tag_type : Int
  get_permset : Int
  add_read : Int
  add_write : Int
  add_execute : Int
  malloc_id : Bool
  set_qualifier : Int
  code_garbage : Int
deriving DecidableEq, Repr

/-- The platform and library the encoder runs against: the width in bits of
`id_t` (declared in `<sys/types.h>`; 32 on Linux), whether `acl_init` succeeds,
and the answers to the calls made for the entry at each index. -/
structure libacl where
  id_bits : Nat
  acl_init : Bool
  calls : Nat → entry_calls

/-- A slot of the caller's `ids` array: never assigned (indeterminate), or
holding a pointer, `none` being NULL. -/
inductive id_slot where
  | unassigned
  | ptr (p : Option id_cell)
deriving DecidableEq, Repr

/-- The release and install events the allocation tracker records. -/
inductive event where
  | free (p : id_slot)
  | acl_free
  | free_ids
  | acl_set_file
deriving DecidableEq, Repr

/-- The tracked heap: the next fresh address and the events so far. -/
structure heap where
  next : Nat
  trace : List event
deriving DecidableEq, Repr

/-- Record one event. -/
def heap.emit (h : heap) (e : event) : heap :=
  { h with trace := h.trace ++ [e] }

/-- The call `acl_set_tag_type(entry, t)` answered with status `status`. -/
def acl_set_tag_type (status : Int) (entry : acl_entry_obj) (t : acl_tag_t) : Int × acl_entry_obj :=
  if status < 0 then (status, entry) else (status, { entry with tag := t })

/-- The call `acl_add_perm(perms, p)` answered with status `status`. -/
def acl_add_perm (status : Int) (entry : acl_entry_obj) (p : acl_perm_t) : Int × acl_entry_obj :=
  if status < 0 then (status, entry)
  else
    match p with
    | .ACL_READ => (status, { entry with read := true })
    | .ACL_WRITE => (status, { entry with write := true })
    | .ACL_EXECUTE => (status, { entry with execute := true })

/-- The call `acl_set_qualifier(entry, id)` answered with status `status`: the
pointer itself is kept in the entry. -/
def acl_set_qualifier (status : Int) (entry : acl_entry_obj) (id : id_cell) : Int × acl_entry_obj :=
  if status < 0 then (status, entry) else (status, { entry with qualifier := some id })

/-- The switch of `go_acl_convert_entry_to_native` (lines 216-235): the value of
`code` and the native entry afterwards.  No case matches a tag outside the six,
and `code` keeps its indeterminate initial value. -/
def set_tag_switch (c : entry_calls) (tag : go_acl_tag_t) (entry : acl_entry_obj) :
    Int × acl_entry_obj :=
  if tag = TAG_USER_OBJ then acl_set_tag_type c.set_tag_type entry ACL_USER_OBJ
  else if tag = TAG_USER then acl_set_tag_type c.set_tag_type entry ACL_USER
  else if tag = TAG_GROUP_OBJ then acl_set_tag_type c.set_tag_type entry ACL_GROUP_OBJ
  else if tag = TAG_GROUP then acl_set_tag_type c.set_tag_type entry ACL_GROUP
  else if tag = TAG_MASK then acl_set_tag_type c.set_tag_type entry ACL_MASK
  else if tag = TAG_OTHER then acl_set_tag_type c.set_tag_type entry ACL_OTHER
  else (c.code_garbage, entry)

/-- One of the three blocks `if ((go_entry.perms & bit) != 0) { acl_add_perm(perms, p) }`
(lines 244-258): the status to test (0 when the call is not made) and the native
entry afterwards. -/
def add_perm_if (perms bit : Int) (status : Int) (entry : acl_entry_obj) (p : acl_perm_t) :
    Int × acl_entry_obj :=
  if Int.land perms bit ≠ 0 then acl_add_perm status entry p else (0, entry)

/-- Function `go_acl_convert_entry_to_native`: the pointer returned (`none` is NULL), the
native entry afterwards and the heap afterwards. -/
def go_acl_convert_entry_to_native (w : Nat) (c : entry_calls) (go_entry : go_acl_entry_t)
    (entry : acl_entry_obj) (h : heap) : Option id_cell × acl_entry_obj × heap :=
  let r := set_tag_switch c go_entry.tag entry
  if r.1 < 0 then (none, r.2, h)
  else if c.get_permset < 0 then (none, r.2, h)
  else
    let r := add_perm_if go_entry.perms 4 c.add_read r.2 .ACL_READ
    if r.1 < 0 then (none, r.2, h)
    else
      let r := add_perm_if go_entry.perms 2 c.add_write r.2 .ACL_WRITE
      if r.1 < 0 then (none, r.2, h)
      else
        let r := add_perm_if go_entry.perms 1 c.add_execute r.2 .ACL_EXECUTE
        if r.1 < 0 then (none, r.2, h)
        else
          let entry := r.2
          if c.malloc_id = false then (none, entry, h)
          else
            let id : id_cell := { addr := h.next, val := go_entry.qualifier % 2 ^ w }
            let h : heap := { h with next := h.next + 1 }
            if go_entry.tag = TAG_USER ∨ go_entry.tag = TAG_GROUP then
              let r := acl_set_qualifier c.set_qualifier entry id
              if r.1 < 0 then (none, r.2, h.emit (.free (.ptr (some id))))
              else (some id, r.2, h)
            else (some id, entry, h)

/-- The cleanup loop `for (j = 0; j < i; j++) free(ids[i]);` with `j` iterations
left: each iteration frees the content of slot `i`. -/
def free_ids_loop (ids : List id_slot) (i : Nat) : Nat → heap → heap
  | 0, h => h
  | j + 1, h => free_ids_loop ids i j (h.emit (.free (ids.getD i .unassigned)))

/-- The loop of `go_acl_convert_to_native` (lines 191-209) over the entries still
to encode, at index `i`: the native object returned (`none` is NULL; an object
is the list of its entries in creation order), the `ids` array and the heap. -/
def convert_entries (lib : libacl) :
    List go_acl_entry_t → Nat → List acl_entry_obj → List id_slot → heap →
      Option (List acl_entry_obj) × List id_slot × heap
  | [], _, acl, ids, h => (some acl, ids, h)
  | go_entry :: rest, i, acl, ids, h =>
    let c := lib.calls i
    if c.create_entry < 0 then
      (none, ids, (free_ids_loop ids i i h).emit .acl_free)
    else
      let r := go_acl_convert_entry_to_native lib.id_bits c go_entry acl_entry_fresh h
      let ids := ids.set i (.ptr r.1)
      let acl := acl ++ [r.2.1]
      let h := r.2.2
      if r.1 = none then
        (none, ids, (free_ids_loop ids i i h).emit .acl_free)
      else convert_entries lib rest (i + 1) acl ids h

/-- Function `go_acl_convert_to_native`: the loop runs over the first `num_entries` slots
of the block. -/
def go_acl_convert_to_native (lib : libacl) (a : go_acl) (ids : List id_slot) (h : heap) :
    Option (List acl_entry_obj) × List id_slot × heap :=
  if lib.acl_init = false then (none, ids, h)
  else convert_entries lib (a.entries.take a.num_entries) 0 [] ids h

/-- The loop `for (i = 0; i < num_entries; i++) free(ids[i]);` of
`go_acl_set_file_impl`, from index `i` with `k` iterations left. -/
def free_all_ids (ids : List id_slot) : Nat → Nat → heap → heap
  | 0, _, h => h
  | k + 1, i, h => free_all_ids ids k (i + 1) (h.emit (.free (ids.getD i .unassigned)))

/-- Function `go_acl_set_file_impl`: `ids_malloc` tells whether the `ids` array is
obtained and `set_file_code` is the status `acl_set_file` returns. -/
def go_acl_set_file_impl (lib : libacl) (ids_malloc : Bool) (set_file_code : Int)
    (a : go_acl) (h : heap) : Int × heap :=
  if ids_malloc = false then (-1, h)
  else
    let ids := List.replicate a.num_entries id_slot.unassigned
    let r := go_acl_convert_to_native lib a ids h
    match r.1 with
    | none => (-1, r.2.2.emit .free_ids)
    | some _ =>
      let h := r.2.2.emit .acl_set_file
      let code := set_file_code
      let h := h.emit .acl_free
      let h := free_all_ids r.2.1 a.num_entries 0 h
      (code, h.emit .free_ids)

/-! ## The library reading back what the encoder built -/

/-- The handle of a well-formed native entry when every accessor call succeeds:
status 0, the stored tag, `acl_get_perm` answering 1 or 0, and the qualifier
cell the entry points to. -/
def libacl_entry (o : acl_entry_obj) : acl_entry_t :=
  { tag_status := 0, tag := o.tag, permset_status := 0,
    perm_read := if o.read then 1 else 0,
    perm_write := if o.write then 1 else 0,
    perm_execute := if o.execute then 1 else 0,
    qualifier := o.qualifier.map (fun p => p.val) }

/-- Iteration over a native object whose entries were created in the order
`objs`: each pass yields the entries in creation order with status 1, the first
pass ends with status 0 and the iteration then starts over. -/
def libacl_iterate (objs : List acl_entry_obj) : acl_t :=
  objs.map (fun o => ⟨1, libacl_entry o⟩) ++ [⟨0, acl_entry_null⟩] ++
    objs.map (fun o => ⟨1, libacl_entry o⟩)

/-- The portable entry a round trip yields: the qualifier of an entry whose tag
is neither User nor Group reads back as 0. -/
def normalize (e : go_acl_entry_t) : go_acl_entry_t :=
  if e.tag = TAG_USER ∨ e.tag = TAG_GROUP then e else { e with qualifier := 0 }

/-! ## Closed forms used by the proofs -/

/-- Every native call and allocation made while one entry is encoded succeeds. -/
def calls_succeed (c : entry_calls) : Prop :=
  0 ≤ c.create_entry ∧ 0 ≤ c.set_tag_type ∧ 0 ≤ c.get_permset ∧ 0 ≤ c.add_read ∧
    0 ≤ c.add_write ∧ 0 ≤ c.add_execute ∧ c.malloc_id = true ∧ 0 ≤ c.set_qualifier

instance (c : entry_calls) : Decidable (calls_succeed c) := by
  unfold calls_succeed; infer_instance

/-- The native tag the encoder's switch selects for a portable tag. -/
def native_tag (t : go_acl_tag_t) : acl_tag_t :=
  if t = TAG_USER_OBJ then ACL_USER_OBJ
  else if t = TAG_USER then ACL_USER
  else if t = TAG_GROUP_OBJ then ACL_GROUP_OBJ
  else if t = TAG_GROUP then ACL_GROUP
  else if t = TAG_MASK then ACL_MASK
  else if t = TAG_OTHER then ACL_OTHER
  else ACL_UNDEFINED_TAG

/-- The native entry a successful encoding of `e` leaves behind, the qualifier
cell being allocated at address `a`. -/
def encoded_entry (w : Nat) (e : go_acl_entry_t) (a : Nat) : acl_entry_obj :=
  { tag := native_tag e.tag,
    read := decide (Int.land e.perms 4 ≠ 0),
    write := decide (Int.land e.perms 2 ≠ 0),
    execute := decide (Int.land e.perms 1 ≠ 0),
    qualifier := if e.tag = TAG_USER ∨ e.tag = TAG_GROUP then some ⟨a, e.qualifier % 2 ^ w⟩ else none }

/-- The permission mask the decoder composes from the three membership tests. -/
def perms_of_bits (r w x : Bool) : Int :=
  let p : Int := 0
  let p := if r then Int.lor p 4 else p
  let p := if w then Int.lor p 2 else p
  if x then Int.lor p 1 else p

/-- The tag the decoder's switch leaves in a slot that held `old`: the portable
tag of a recognised native tag, otherwise `old` (the switch has no default). -/
def decoded_tag (tag : acl_tag_t) (old : go_acl_tag_t) : go_acl_tag_t :=
  if tag = ACL_USER_OBJ then TAG_USER_OBJ
  else if tag = ACL_USER then TAG_USER
  else if tag = ACL_GROUP_OBJ then TAG_GROUP_OBJ
  else if tag = ACL_GROUP then TAG_GROUP
  else if tag = ACL_MASK then TAG_MASK
  else if tag = ACL_OTHER then TAG_OTHER
  else old

/-- The result of the `j`-th next `acl_get_entry` call on `acl` (counting from 0);
like `acl_get_entry`, a status-0 result carries the NULL handle. -/
def nth_result (acl : acl_t) (j : Nat) : get_entry_result :=
  if ((acl[j]?).getD ⟨0, acl_entry_null⟩).code = 0 then ⟨0, acl_entry_null⟩
  else (acl[j]?).getD ⟨0, acl_entry_null⟩

/-- What the fill loop does to the slots it still has to fill, slot by slot:
`none` when a call fails, otherwise the decoded slots. -/
def fill_spec : acl_t → List go_acl_entry_t → Option (List go_acl_entry_t)
  | _, [] => some []
  | acl, slot :: slots =>
    if (acl_get_entry acl).1.code < 0 then none
    else if (go_acl_convert_entry_from_native (acl_get_entry acl).1.entry slot).1 < 0 then none
    else
      (fill_spec (acl_get_entry acl).2 slots).map
        (fun l => (go_acl_convert_entry_from_native (acl_get_entry acl).1.entry slot).2 :: l)

/-- The native entries a successful encoding of `es` creates, the qualifier
cells being allocated from address `a` on. -/
def encoded_entries (w : Nat) : List go_acl_entry_t → Nat → List acl_entry_obj
  | [], _ => []
  | e :: es, a => encoded_entry w e a :: encoded_entries w es (a + 1)

/-- The `ids` array after a successful encoding of `es` from index `i` on, the
cells being allocated from address `a` on. -/
def assigned_ids (w : Nat) : List go_acl_entry_t → Nat → Nat → List id_slot → List id_slot
  | [], _, _, ids => ids
  | e :: es, a, i, ids =>
    assigned_ids w es (a + 1) (i + 1) (ids.set i (.ptr (some ⟨a, e.qualifier % 2 ^ w⟩)))

/-- The free events of the cells of `es` allocated from address `a` on. -/
def free_events (w : Nat) : List go_acl_entry_t → Nat → List event
  | [], _ => []
  | e :: es, a => .free (.ptr (some ⟨a, e.qualifier % 2 ^ w⟩)) :: free_events w es (a + 1)

/-- Answers of a library in which every call and allocation succeeds. -/
def ok_calls : entry_calls :=
  { create_entry := 0, set_tag_type := 0, get_permset := 0, add_read := 0, add_write := 0,
    add_execute := 0, malloc_id := true, set_qualifier := 0, code_garbage := 0 }

/-- Linux with a library in which every call and allocation succeeds. -/
def linux_ok : libacl :=
  { id_bits := 32, acl_init := true, calls := fun _ => ok_calls }

/-- An allocator that succeeds and hands out zeroed blocks. -/
def zeroed : allocator :=
  { go_acl := true, entries := some (fun _ => ⟨TAG_UNDEFINED, 0, 0⟩) }

/-- A native entry tagged `ACL_OTHER` with permission read; every accessor call
succeeds. -/
def other_entry : acl_entry_t :=
  { tag_status := 0, tag := ACL_OTHER, permset_status := 0, perm_read := 1,
    perm_write := 0, perm_execute := 0, qualifier := none }

/-- The ACL of the concrete scenario_acl: owner rw, owning group rw, other r. -/
def scenario_acl : List go_acl_entry_t :=
  [⟨TAG_USER_OBJ, 0, 6⟩, ⟨TAG_GROUP_OBJ, 0, 6⟩, ⟨TAG_OTHER, 0, 4⟩]

/-- An ACL of two entries. -/
def two_entries : go_acl :=
  { num_entries := 2, entries := [⟨TAG_USER_OBJ, 0, 6⟩, ⟨TAG_GROUP_OBJ, 0, 6⟩] }

/-- A library in which `acl_create_entry` fails for the entry at index 1 and
every other call succeeds. -/
def create_fails_at_1 : libacl :=
  { id_bits := 32, acl_init := true,
    calls := fun i => if i = 1 then { ok_calls with create_entry := -1 } else ok_calls }

/-- A library in which `acl_set_tag_type` fails for the entry at index 1 and
every other call succeeds. -/
def set_tag_fails_at_1 : libacl :=
  { id_bits := 32, acl_init := true,
    calls := fun i => if i = 1 then { ok_calls with set_tag_type := -1 } else ok_calls }

/-- A path. -/
def path_f : String := "/tmp/f"

/-- A native object whose first `acl_get_entry` call fails. -/
def broken_acl : acl_t := [⟨-1, acl_entry_null⟩]

/-- A native object that yields two entries in the counting pass and, in the
fill pass, one entry and then status 0 (with the NULL handle). -/
def short_acl : acl_t :=
  [⟨1, other_entry⟩, ⟨1, other_entry⟩, ⟨0, acl_entry_null⟩, ⟨1, other_entry⟩,
    ⟨0, acl_entry_null⟩]

/-- An allocator that succeeds and hands out blocks whose slots hold a stale
`TAG_USER` entry. -/
def stale : allocator :=
  { go_acl := true, entries := some (fun _ => ⟨TAG_USER, 7, 0⟩) }

/-- A native entry whose tag is `ACL_UNDEFINED_TAG`, with permissions read and
write and a qualifier cell holding 42; every accessor call succeeds. -/
def stray_entry : acl_entry_t :=
  { tag_status := 0, tag := ACL_UNDEFINED_TAG, permset_status := 0, perm_read := 1,
    perm_write := 1, perm_execute := 0, qualifier := some 42 }

/-! ## Entry converter: auxiliary facts -/

theorem not_lt_zero_of_nonneg {x : Int} (h : 0 ≤ x) : ¬ x < 0 := by omega

theorem encode_entry_ok (w : Nat) (c : entry_calls) (e : go_acl_entry_t) (h : heap)
    (hc : calls_succeed c) (ht : real_tag e.tag) :
    go_acl_convert_entry_to_native w c e acl_entry_fresh h =
      (some ⟨h.next, e.qualifier % 2 ^ w⟩, encoded_entry w e h.next,
        { h with next := h.next + 1 }) := by
  obtain ⟨h1, h2, h3, h4, h5, h6, h7, h8⟩ := hc
  have e2 := not_lt_zero_of_nonneg h2
  have e3 := not_lt_zero_of_nonneg h3
  have e4 := not_lt_zero_of_nonneg h4
  have e5 := not_lt_zero_of_nonneg h5
  have e6 := not_lt_zero_of_nonneg h6
  have e8 := not_lt_zero_of_nonneg h8
  obtain ⟨tag, q, p⟩ := e
  simp only [real_tag] at ht
  by_cases b4 : Int.land p 4 ≠ 0 <;> by_cases b2 : Int.land p 2 ≠ 0 <;>
    by_cases b1 : Int.land p 1 ≠ 0 <;>
    rcases ht with ht | ht | ht | ht | ht | ht <;> subst ht <;>
    simp [go_acl_convert_entry_to_native, set_tag_switch, add_perm_if, encoded_entry,
      native_tag, acl_set_tag_type, acl_add_perm, acl_set_qualifier, acl_entry_fresh, e2, e3, e4, e5, e6, e8, h7, b4, b2, b1,
      TAG_USER_OBJ, TAG_USER, TAG_GROUP_OBJ, TAG_GROUP, TAG_MASK, TAG_OTHER]

theorem perms_of_bits_land (p : Int) (h0 : 0 ≤ p) (h7 : p ≤ 7) :
    perms_of_bits (decide (Int.land p 4 ≠ 0)) (decide (Int.land p 2 ≠ 0))
      (decide (Int.land p 1 ≠ 0)) = p := by
  interval_cases p <;> decide

theorem perms_of_bits_range (r w x : Bool) :
    0 ≤ perms_of_bits r w x ∧ perms_of_bits r w x ≤ 7 := by
  cases r <;> cases w <;> cases x <;> decide

theorem decode_view (o : acl_entry_obj) (slot : go_acl_entry_t) (t : go_acl_tag_t)
    (ht : real_tag t) (ho : o.tag = native_tag t) :
    go_acl_convert_entry_from_native (libacl_entry o) slot =
      if t = TAG_USER ∨ t = TAG_GROUP then
        match o.qualifier with
        | none => (-1, ⟨t, 0, perms_of_bits o.read o.write o.execute⟩)
        | some id => (0, ⟨t, id.val, perms_of_bits o.read o.write o.execute⟩)
      else (0, ⟨t, 0, perms_of_bits o.read o.write o.execute⟩) := by
  obtain ⟨tag, r, w, x, q⟩ := o
  simp only at ho
  subst ho
  simp only [real_tag] at ht
  rcases ht with ht | ht | ht | ht | ht | ht <;> subst ht <;>
    cases r <;> cases w <;> cases x <;> cases q <;>
    simp [go_acl_convert_entry_from_native, libacl_entry, native_tag, acl_get_perm,
      perms_of_bits, TAG_USER_OBJ, TAG_USER, TAG_GROUP_OBJ, TAG_GROUP, TAG_MASK, TAG_OTHER,
      ACL_USER_OBJ, ACL_USER, ACL_GROUP_OBJ, ACL_GROUP, ACL_MASK, ACL_OTHER]

theorem decode_encoded (w : Nat) (e : go_acl_entry_t) (a : Nat) (slot : go_acl_entry_t)
    (ht : real_tag e.tag) (h0 : 0 ≤ e.perms) (h7 : e.perms ≤ 7) :
    go_acl_convert_entry_from_native (libacl_entry (encoded_entry w e a)) slot =
      (0, ⟨e.tag, if e.tag = TAG_USER ∨ e.tag = TAG_GROUP then e.qualifier % 2 ^ w else 0,
        e.perms⟩) := by
  rw [decode_view (encoded_entry w e a) slot e.tag ht rfl]
  simp only [encoded_entry, perms_of_bits_land e.perms h0 h7]
  split_ifs <;> rfl

theorem decode_form (entry : acl_entry_t) (s : go_acl_entry_t) :
    go_acl_convert_entry_from_native entry s =
      if entry.tag_status < 0 then (entry.tag_status, s)
      else if entry.permset_status < 0 then
        (entry.permset_status, ⟨decoded_tag entry.tag s.tag, s.qualifier, s.perms⟩)
      else if entry.perm_read < 0 then
        (entry.perm_read, ⟨decoded_tag entry.tag s.tag, s.qualifier, 0⟩)
      else if entry.perm_write < 0 then
        (entry.perm_write, ⟨decoded_tag entry.tag s.tag, s.qualifier,
          perms_of_bits (decide (0 < entry.perm_read)) false false⟩)
      else if entry.perm_execute < 0 then
        (entry.perm_execute, ⟨decoded_tag entry.tag s.tag, s.qualifier,
          perms_of_bits (decide (0 < entry.perm_read)) (decide (0 < entry.perm_write)) false⟩)
      else if decoded_tag entry.tag s.tag = TAG_USER ∨ decoded_tag entry.tag s.tag = TAG_GROUP then
        match entry.qualifier with
        | none => (-1, ⟨decoded_tag entry.tag s.tag, 0,
            perms_of_bits (decide (0 < entry.perm_read)) (decide (0 < entry.perm_write))
              (decide (0 < entry.perm_execute))⟩)
        | some id => (0, ⟨decoded_tag entry.tag s.tag, id,
            perms_of_bits (decide (0 < entry.perm_read)) (decide (0 < entry.perm_write))
              (decide (0 < entry.perm_execute))⟩)
      else (0, ⟨decoded_tag entry.tag s.tag, 0,
            perms_of_bits (decide (0 < entry.perm_read)) (decide (0 < entry.perm_write))
              (decide (0 < entry.perm_execute))⟩) := by
  have hT : (if entry.tag = ACL_USER_OBJ then ({ s with tag := TAG_USER_OBJ } : go_acl_entry_t)
      else if entry.tag = ACL_USER then { s with tag := TAG_USER }
      else if entry.tag = ACL_GROUP_OBJ then { s with tag := TAG_GROUP_OBJ }
      else if entry.tag = ACL_GROUP then { s with tag := TAG_GROUP }
      else if entry.tag = ACL_MASK then { s with tag := TAG_MASK }
      else if entry.tag = ACL_OTHER then { s with tag := TAG_OTHER }
      else s) = ⟨decoded_tag entry.tag s.tag, s.qualifier, s.perms⟩ := by
    unfold decoded_tag
    split_ifs <;> rfl
  simp only [go_acl_convert_entry_from_native, acl_get_perm, hT]
  by_cases h1 : entry.tag_status < 0
  · simp [h1]
  by_cases h2 : entry.permset_status < 0
  · simp [h1, h2]
  by_cases h3 : entry.perm_read < 0
  · simp [h1, h2, h3]
  by_cases h4 : entry.perm_write < 0
  · simp only [h1, h2, h3, h4, if_true, if_false]
    by_cases r : 0 < entry.perm_read <;> simp [r, perms_of_bits]
  by_cases h5 : entry.perm_execute < 0
  · simp only [h1, h2, h3, h4, h5, if_true, if_false]
    by_cases r : 0 < entry.perm_read <;> by_cases w : 0 < entry.perm_write <;>
      simp [r, w, perms_of_bits]
  simp only [h1, h2, h3, h4, h5, if_true, if_false]
  by_cases r : 0 < entry.perm_read <;> by_cases w : 0 < entry.perm_write <;>
    by_cases x : 0 < entry.perm_execute <;>
    simp [r, w, x, perms_of_bits]

theorem decoded_tag_user_group (tag : acl_tag_t) (old : go_acl_tag_t)
    (h : tag = ACL_USER ∨ tag = ACL_GROUP) :
    decoded_tag tag old = TAG_USER ∨ decoded_tag tag old = TAG_GROUP := by
  rcases h with h | h <;> subst h <;> simp [decoded_tag, ACL_USER, ACL_GROUP, ACL_USER_OBJ,
    ACL_GROUP_OBJ]

theorem decode_status_neg (entry : acl_entry_t) (s : go_acl_entry_t)
    (h : entry.tag_status < 0 ∨ entry.permset_status < 0 ∨ entry.perm_read < 0 ∨
      entry.perm_write < 0 ∨ entry.perm_execute < 0 ∨
      ((entry.tag = ACL_USER ∨ entry.tag = ACL_GROUP) ∧ entry.qualifier = none)) :
    (go_acl_convert_entry_from_native entry s).1 < 0 := by
  rw [decode_form]
  by_cases h1 : entry.tag_status < 0
  · simp [h1]
  by_cases h2 : entry.permset_status < 0
  · simp [h1, h2]
  by_cases h3 : entry.perm_read < 0
  · simp [h1, h2, h3]
  by_cases h4 : entry.perm_write < 0
  · simp [h1, h2, h3, h4]
  by_cases h5 : entry.perm_execute < 0
  · simp [h1, h2, h3, h4, h5]
  have hq : (entry.tag = ACL_USER ∨ entry.tag = ACL_GROUP) ∧ entry.qualifier = none := by
    rcases h with h | h | h | h | h | h
    · exact absurd h h1
    · exact absurd h h2
    · exact absurd h h3
    · exact absurd h h4
    · exact absurd h h5
    · exact h
  have ht := decoded_tag_user_group entry.tag s.tag hq.1
  simp only [h1, h2, h3, h4, h5, if_false, ht, if_true, hq.2]
  decide

theorem decode_null (s : go_acl_entry_t) :
    (go_acl_convert_entry_from_native acl_entry_null s).1 < 0 :=
  decode_status_neg acl_entry_null s (Or.inl (by decide))

theorem decode_status_nonneg (entry : acl_entry_t) (s : go_acl_entry_t)
    (h : 0 ≤ (go_acl_convert_entry_from_native entry s).1) :
    (go_acl_convert_entry_from_native entry s).1 = 0 ∧
    (go_acl_convert_entry_from_native entry s).2.tag = decoded_tag entry.tag s.tag ∧
    (go_acl_convert_entry_from_native entry s).2.perms =
      perms_of_bits (decide (0 < entry.perm_read)) (decide (0 < entry.perm_write))
        (decide (0 < entry.perm_execute)) ∧
    ((go_acl_convert_entry_from_native entry s).2.tag ≠ TAG_USER →
      (go_acl_convert_entry_from_native entry s).2.tag ≠ TAG_GROUP →
      (go_acl_convert_entry_from_native entry s).2.qualifier = 0) := by
  rw [decode_form] at h ⊢
  by_cases h1 : entry.tag_status < 0
  · simp only [h1, if_true] at h; omega
  by_cases h2 : entry.permset_status < 0
  · simp only [h1, h2, if_true, if_false] at h; omega
  by_cases h3 : entry.perm_read < 0
  · simp only [h1, h2, h3, if_true, if_false] at h; omega
  by_cases h4 : entry.perm_write < 0
  · simp only [h1, h2, h3, h4, if_true, if_false] at h; omega
  by_cases h5 : entry.perm_execute < 0
  · simp only [h1, h2, h3, h4, h5, if_true, if_false] at h; omega
  simp only [h1, h2, h3, h4, h5, if_false] at h ⊢
  by_cases ht : decoded_tag entry.tag s.tag = TAG_USER ∨ decoded_tag entry.tag s.tag = TAG_GROUP
  · simp only [ht, if_true] at h ⊢
    cases hq : entry.qualifier with
    | none => simp [hq] at h
    | some id =>
      simp only [hq]
      refine ⟨trivial, trivial, trivial, ?_⟩
      intro hu hg
      rcases ht with ht | ht
      · exact absurd ht hu
      · exact absurd ht hg
  · simp only [ht, if_false]
    exact ⟨trivial, trivial, trivial, fun _ _ => trivial⟩

/-! ## Decoder: auxiliary facts -/

theorem nth_result_code (acl : acl_t) (j : Nat) :
    (nth_result acl j).code = ((acl[j]?).getD ⟨0, acl_entry_null⟩).code := by
  unfold nth_result
  split_ifs with h
  · exact h.symm
  · rfl

theorem nth_result_zero (acl : acl_t) (j : Nat) (h : (nth_result acl j).code = 0) :
    nth_result acl j = ⟨0, acl_entry_null⟩ := by
  have hc := nth_result_code acl j
  rw [h] at hc
  unfold nth_result
  rw [if_pos hc.symm]

theorem nth_result_tail (acl : acl_t) (j : Nat) :
    nth_result (acl_get_entry acl).2 j = nth_result acl (j + 1) := by
  cases acl with
  | nil => simp [acl_get_entry, nth_result]
  | cons r rs => simp [acl_get_entry, nth_result]

theorem acl_get_entry_fst (acl : acl_t) : (acl_get_entry acl).1 = nth_result acl 0 := by
  cases acl with
  | nil => simp [acl_get_entry, nth_result]
  | cons r rs => simp [acl_get_entry, nth_result]

theorem fill_entries_eq_spec (todo : List go_acl_entry_t) :
    ∀ (acl : acl_t) (done : List go_acl_entry_t),
      fill_entries todo.length done.length acl (done ++ todo) =
        (fill_spec acl todo).map (fun l => done ++ l) := by
  induction todo with
  | nil => intro acl done; simp [fill_entries, fill_spec]
  | cons slot slots ih =>
    intro acl done
    simp only [List.length_cons, fill_entries, fill_spec]
    by_cases h1 : (acl_get_entry acl).1.code < 0
    · simp [h1]
    · simp only [h1, if_false]
      have hget : (done ++ slot :: slots)[done.length]? = some slot := by
        rw [List.getElem?_append_right (le_refl _)]; simp
      rw [hget]
      simp only
      by_cases h2 : (go_acl_convert_entry_from_native (acl_get_entry acl).1.entry slot).1 < 0
      · simp [h2]
      · simp only [h2, if_false]
        have hset : (done ++ slot :: slots).set done.length
            (go_acl_convert_entry_from_native (acl_get_entry acl).1.entry slot).2 =
            (done ++ [(go_acl_convert_entry_from_native (acl_get_entry acl).1.entry slot).2]) ++
              slots := by
          simp
        rw [hset]
        have hlen : done.length + 1 =
            (done ++ [(go_acl_convert_entry_from_native (acl_get_entry acl).1.entry slot).2]).length := by
          simp
        rw [hlen, ih]
        cases fill_spec (acl_get_entry acl).2 slots <;> simp

theorem fill_spec_some (todo : List go_acl_entry_t) :
    ∀ (acl : acl_t) (r : List go_acl_entry_t), fill_spec acl todo = some r →
      r.length = todo.length ∧
      ∀ i (hi : i < todo.length), 0 ≤ (nth_result acl i).code ∧
        0 ≤ (go_acl_convert_entry_from_native (nth_result acl i).entry todo[i]).1 ∧
        r[i]? = some (go_acl_convert_entry_from_native (nth_result acl i).entry todo[i]).2 := by
  induction todo with
  | nil =>
    intro acl r h
    simp [fill_spec] at h
    subst h
    exact ⟨rfl, fun i hi => absurd hi (by simp)⟩
  | cons slot slots ih =>
    intro acl r h
    simp only [fill_spec] at h
    by_cases h1 : (acl_get_entry acl).1.code < 0
    · simp [h1] at h
    by_cases h2 : (go_acl_convert_entry_from_native (acl_get_entry acl).1.entry slot).1 < 0
    · simp [h1, h2] at h
    simp only [h1, h2, if_false] at h
    cases hrec : fill_spec (acl_get_entry acl).2 slots with
    | none => simp [hrec] at h
    | some l =>
      simp [hrec] at h
      subst h
      obtain ⟨hl, hall⟩ := ih _ l hrec
      refine ⟨by simp [hl], ?_⟩
      intro i hi
      cases i with
      | zero =>
        rw [← acl_get_entry_fst]
        exact ⟨by omega, by simpa using h2, by simp⟩
      | succ j =>
        have hj : j < slots.length := by simpa using hi
        have := hall j hj
        rw [nth_result_tail] at this
        simpa using this

theorem fill_spec_none (todo : List go_acl_entry_t) :
    ∀ (acl : acl_t) (i : Nat) (hi : i < todo.length),
      ((nth_result acl i).code < 0 ∨
        (go_acl_convert_entry_from_native (nth_result acl i).entry todo[i]).1 < 0) →
      fill_spec acl todo = none := by
  intro acl i hi hfail
  cases h : fill_spec acl todo with
  | none => rfl
  | some r =>
    obtain ⟨_, hall⟩ := fill_spec_some todo acl r h
    obtain ⟨h1, h2, _⟩ := hall i hi
    rcases hfail with hf | hf <;> omega

theorem fresh_block_length (g : Nat → go_acl_entry_t) (n : Nat) : (fresh_block g n).length = n := by
  simp [fresh_block]

theorem fresh_block_get (g : Nat → go_acl_entry_t) (n i : Nat) (hi : i < (fresh_block g n).length) :
    (fresh_block g n)[i] = g i := by
  simp [fresh_block]

theorem fill_fresh (g : Nat → go_acl_entry_t) (n : Nat) (acl : acl_t) :
    fill_entries n 0 acl (fresh_block g n) = fill_spec acl (fresh_block g n) := by
  have h := fill_entries_eq_spec (fresh_block g n) acl []
  simp only [fresh_block_length, List.length_nil, List.nil_append] at h
  rw [h]
  cases fill_spec acl (fresh_block g n) <;> simp

theorem count_entries_neg (acl : acl_t) :
    ∀ (k n : Nat), (∀ j, j < k → 0 < (nth_result acl j).code) → (nth_result acl k).code < 0 →
      count_entries acl n = none := by
  induction acl with
  | nil =>
    intro k n _ hk
    simp [nth_result_code] at hk
  | cons r rs ih =>
    intro k n hpos hk
    cases k with
    | zero =>
      have hr : r.code < 0 := by simpa [nth_result_code] using hk
      have hr0 : r.code ≠ 0 := by omega
      simp [count_entries, hr, hr0]
    | succ k =>
      have h0 : 0 < r.code := by simpa [nth_result_code] using hpos 0 (by omega)
      have hr0 : r.code ≠ 0 := by omega
      have hrn : ¬ r.code < 0 := by omega
      simp only [count_entries, hr0, hrn, if_false]
      apply ih k (n + 1)
      · intro j hj
        have := hpos (j + 1) (by omega)
        simpa [nth_result_code] using this
      · simpa [nth_result_code] using hk

theorem convert_from_native_some (m : allocator) (acl : acl_t) (a : go_acl)
    (h : go_acl_convert_from_native m acl = some a) :
    ∃ n rest g, m.go_acl = true ∧ count_entries acl 0 = some (n, rest) ∧ m.entries = some g ∧
      a.num_entries = n ∧ fill_spec rest (fresh_block g n) = some a.entries := by
  unfold go_acl_convert_from_native at h
  by_cases hm : m.go_acl = false
  · simp [hm] at h
  simp only [hm, if_false] at h
  cases hc : count_entries acl 0 with
  | none => simp [hc] at h
  | some p =>
    obtain ⟨n, rest⟩ := p
    simp only [hc] at h
    cases hg : m.entries with
    | none => simp [hg] at h
    | some g =>
      simp only [hg, fill_fresh] at h
      cases hf : fill_spec rest (fresh_block g n) with
      | none => simp [hf] at h
      | some r =>
        simp [hf] at h
        subst h
        exact ⟨n, rest, g, by simpa using hm, rfl, rfl, rfl, hf⟩

theorem convert_from_native_fill_none (m : allocator) (acl : acl_t) (n : Nat) (rest : acl_t)
    (g : Nat → go_acl_entry_t) (hc : count_entries acl 0 = some (n, rest))
    (hg : m.entries = some g) (hf : fill_spec rest (fresh_block g n) = none) :
    go_acl_convert_from_native m acl = none := by
  unfold go_acl_convert_from_native
  by_cases hm : m.go_acl = false
  · simp [hm]
  · simp [hm, hc, hg, fill_fresh, hf]

theorem convert_from_native_ok (m : allocator) (acl : acl_t) (n : Nat) (rest : acl_t)
    (g : Nat → go_acl_entry_t) (r : List go_acl_entry_t) (hm : m.go_acl = true)
    (hc : count_entries acl 0 = some (n, rest))
    (hg : m.entries = some g) (hf : fill_spec rest (fresh_block g n) = some r) :
    go_acl_convert_from_native m acl = some ⟨n, r⟩ := by
  unfold go_acl_convert_from_native
  simp [hm, hc, hg, fill_fresh, hf]

/-! ## Portable model: auxiliary facts -/

theorem put_entry_spec (a : go_acl) (i : Nat) (x : go_acl_entry_t) (hi : i < a.entries.length) :
    ∃ a', go_acl_put_entry a i x = some a' ∧ a'.num_entries = a.num_entries ∧
      a'.entries.length = a.entries.length ∧ go_acl_get_entry a' i = some x ∧
      ∀ j, j ≠ i → go_acl_get_entry a' j = go_acl_get_entry a j := by
  refine ⟨{ a with entries := a.entries.set i x }, ?_, rfl, ?_, ?_, ?_⟩
  · simp [go_acl_put_entry, hi]
  · simp
  · simp [go_acl_get_entry, hi]
  · intro j hj
    simp [go_acl_get_entry, List.getElem?_set, Ne.symm hj]

theorem put_entries_spec (e : Nat → go_acl_entry_t) (order : List Nat) :
    ∀ a : go_acl, (∀ i ∈ order, i < a.entries.length) →
      ∃ a', put_entries e order a = some a' ∧ a'.num_entries = a.num_entries ∧
        a'.entries.length = a.entries.length ∧
        ∀ j, (j ∈ order → go_acl_get_entry a' j = some (e j)) ∧
          (j ∉ order → go_acl_get_entry a' j = go_acl_get_entry a j) := by
  induction order with
  | nil =>
    intro a _
    exact ⟨a, rfl, rfl, rfl, fun j => ⟨fun h => by simp at h, fun _ => rfl⟩⟩
  | cons i rest ih =>
    intro a hin
    have hi : i < a.entries.length := hin i (by simp)
    obtain ⟨a1, h1, hn1, hl1, hg1, ho1⟩ := put_entry_spec a i (e i) hi
    obtain ⟨a2, h2, hn2, hl2, hg2⟩ := ih a1 (fun k hk => by
      rw [hl1]; exact hin k (by simp [hk]))
    refine ⟨a2, ?_, by rw [hn2, hn1], by rw [hl2, hl1], ?_⟩
    · simp [put_entries, h1, h2]
    · intro j
      constructor
      · intro hj
        by_cases hjr : j ∈ rest
        · exact (hg2 j).1 hjr
        · have hji : j = i := by
            rcases List.mem_cons.mp hj with h | h
            · exact h
            · exact absurd h hjr
          rw [(hg2 j).2 hjr, hji]; exact hg1
      · intro hj
        have hjr : j ∉ rest := fun h => hj (List.mem_cons_of_mem _ h)
        have hji : j ≠ i := fun h => hj (by simp [h])
        rw [(hg2 j).2 hjr]; exact ho1 j hji

theorem create_spec (m : allocator) (n : Nat) (a : go_acl) (h : go_acl_create m n = some a) :
    a.num_entries = n ∧ a.entries.length = n := by
  unfold go_acl_create at h
  split at h
  · simp at h
  · split at h
    · simp at h
    · simp at h
      subst h
      simp [fresh_block]

/-- C6: after a successful `go_acl_create(n)` followed by `go_acl_put_entry(acl, i, e i)`
for the indices of `order` (any order that stays below `n` and reaches every index below `n`),
every put succeeds, `num_entries` is `n`, the block has `n` slots and `go_acl_get_entry(acl, i)`
is `e i` for every `i < n`; and a put at an in-range index changes slot `i` only, leaving
`num_entries`, the block length and every other slot as they were. -/
theorem count_invariant (m : allocator) (n : Nat) (a : go_acl) (e : Nat → go_acl_entry_t)
    (order : List Nat) (hc : go_acl_create m n = some a)
    (hin : ∀ i ∈ order, i < n) (hall : ∀ i, i < n → i ∈ order) :
    (∃ a', put_entries e order a = some a' ∧ a'.num_entries = n ∧ a'.entries.length = n ∧
      ∀ i, i < n → go_acl_get_entry a' i = some (e i)) ∧
    (∀ (b : go_acl) (i : Nat) (x : go_acl_entry_t), i < b.entries.length →
      ∃ b', go_acl_put_entry b i x = some b' ∧ b'.num_entries = b.num_entries ∧
        b'.entries.length = b.entries.length ∧ go_acl_get_entry b' i = some x ∧
        ∀ j, j ≠ i → go_acl_get_entry b' j = go_acl_get_entry b j) := by
  obtain ⟨hn, hl⟩ := create_spec m n a hc
  refine ⟨?_, fun b i x hi => put_entry_spec b i x hi⟩
  obtain ⟨a', h1, h2, h3, h4⟩ := put_entries_spec e order a (fun i hi => by rw [hl]; exact hin i hi)
  exact ⟨a', h1, by rw [h2, hn], by rw [h3, hl], fun i hi => (h4 i).1 (hall i hi)⟩

theorem count_invariant_witness :
    ∃ a', put_entries (fun i => ⟨TAG_OTHER, 0, i⟩) [2, 0, 1]
        ⟨3, fresh_block (fun _ => ⟨TAG_UNDEFINED, 9, 9⟩) 3⟩ = some a' ∧ a'.num_entries = 3 ∧
      a'.entries.length = 3 ∧
      ∀ i, i < 3 → go_acl_get_entry a' i = some ((fun i => ⟨TAG_OTHER, 0, i⟩ : Nat → go_acl_entry_t) i) :=
  (count_invariant ⟨true, some (fun _ => ⟨TAG_UNDEFINED, 9, 9⟩)⟩ 3 _ (fun i => ⟨TAG_OTHER, 0, i⟩)
    [2, 0, 1] rfl (by decide) (by decide)).1

/-! ## Decoding: the claims -/

/-- C10 (counterexample): a native entry whose tag is `ACL_UNDEFINED_TAG`, every accessor call
succeeding, decoded into a slot of a block that `malloc` left holding a `TAG_USER` entry: the
decoded tag is `TAG_USER`, a real tag and not `TAG_UNDEFINED`, and the qualifier is 42, not 0;
`go_acl_convert_from_native` returns that entry. -/
theorem unrecognized_tag_counterexample :
    (stray_entry.tag ≠ ACL_USER_OBJ ∧ stray_entry.tag ≠ ACL_USER ∧
      stray_entry.tag ≠ ACL_GROUP_OBJ ∧ stray_entry.tag ≠ ACL_GROUP ∧
      stray_entry.tag ≠ ACL_MASK ∧ stray_entry.tag ≠ ACL_OTHER) ∧
    go_acl_convert_entry_from_native stray_entry ⟨TAG_USER, 7, 0⟩ = (0, ⟨TAG_USER, 42, 6⟩) ∧
    (go_acl_convert_entry_from_native stray_entry ⟨TAG_USER, 7, 0⟩).2.tag ≠ TAG_UNDEFINED ∧
    real_tag (go_acl_convert_entry_from_native stray_entry ⟨TAG_USER, 7, 0⟩).2.tag ∧
    (go_acl_convert_entry_from_native stray_entry ⟨TAG_USER, 7, 0⟩).2.qualifier ≠ 0 ∧
    go_acl_convert_from_native stale
        [⟨1, stray_entry⟩, ⟨0, acl_entry_null⟩, ⟨1, stray_entry⟩] =
      some ⟨1, [⟨TAG_USER, 42, 6⟩]⟩ := by
  decide

/-- C10 (amended): for a native entry whose tag is none of the six recognised native tags and
whose tag, permission-set and permission-test calls succeed, `go_acl_convert_entry_from_native`
leaves the tag of the destination slot as it was before the call; when that retained tag is
neither `TAG_USER` nor `TAG_GROUP` the call returns 0 and the qualifier is 0; in particular a
slot that held `TAG_UNDEFINED` decodes to tag `TAG_UNDEFINED`, status 0 and qualifier 0. -/
theorem unrecognized_tag_keeps (entry : acl_entry_t) (go_entry : go_acl_entry_t)
    (htag : entry.tag ≠ ACL_USER_OBJ ∧ entry.tag ≠ ACL_USER ∧ entry.tag ≠ ACL_GROUP_OBJ ∧
      entry.tag ≠ ACL_GROUP ∧ entry.tag ≠ ACL_MASK ∧ entry.tag ≠ ACL_OTHER)
    (hs : 0 ≤ entry.tag_status) (hp : 0 ≤ entry.permset_status)
    (hr : 0 ≤ entry.perm_read) (hw : 0 ≤ entry.perm_write) (hx : 0 ≤ entry.perm_execute) :
    (go_acl_convert_entry_from_native entry go_entry).2.tag = go_entry.tag ∧
    (go_entry.tag ≠ TAG_USER → go_entry.tag ≠ TAG_GROUP →
      (go_acl_convert_entry_from_native entry go_entry).1 = 0 ∧
      (go_acl_convert_entry_from_native entry go_entry).2.qualifier = 0) ∧
    (go_entry.tag = TAG_UNDEFINED →
      (go_acl_convert_entry_from_native entry go_entry).1 = 0 ∧
      (go_acl_convert_entry_from_native entry go_entry).2.tag = TAG_UNDEFINED ∧
      (go_acl_convert_entry_from_native entry go_entry).2.qualifier = 0) := by
  obtain ⟨h1, h2, h3, h4, h5, h6⟩ := htag
  have e1 := not_lt_zero_of_nonneg hs
  have e2 := not_lt_zero_of_nonneg hp
  have e3 := not_lt_zero_of_nonneg hr
  have e4 := not_lt_zero_of_nonneg hw
  have e5 := not_lt_zero_of_nonneg hx
  have hT : decoded_tag entry.tag go_entry.tag = go_entry.tag := by
    simp [decoded_tag, h1, h2, h3, h4, h5, h6]
  have key : (go_acl_convert_entry_from_native entry go_entry).2.tag = go_entry.tag ∧
      (go_entry.tag ≠ TAG_USER → go_entry.tag ≠ TAG_GROUP →
        (go_acl_convert_entry_from_native entry go_entry).1 = 0 ∧
        (go_acl_convert_entry_from_native entry go_entry).2.qualifier = 0) := by
    rw [decode_form]
    simp only [e1, e2, e3, e4, e5, if_false, hT]
    constructor
    · split_ifs
      · cases entry.qualifier <;> rfl
      · rfl
    · intro hu hg
      have hne : ¬ (go_entry.tag = TAG_USER ∨ go_entry.tag = TAG_GROUP) := by
        intro h; rcases h with h | h
        · exact hu h
        · exact hg h
      simp only [hne, if_false]
      exact ⟨trivial, trivial⟩
  refine ⟨key.1, key.2, ?_⟩
  intro hz
  have hu : go_entry.tag ≠ TAG_USER := by rw [hz]; decide
  have hg : go_entry.tag ≠ TAG_GROUP := by rw [hz]; decide
  exact ⟨(key.2 hu hg).1, by rw [key.1, hz], (key.2 hu hg).2⟩

theorem unrecognized_tag_keeps_witness :
    (go_acl_convert_entry_from_native stray_entry ⟨TAG_UNDEFINED, 7, 5⟩).2.tag = TAG_UNDEFINED ∧
    (go_acl_convert_entry_from_native stray_entry ⟨TAG_UNDEFINED, 7, 5⟩).1 = 0 ∧
    (go_acl_convert_entry_from_native stray_entry ⟨TAG_UNDEFINED, 7, 5⟩).2.qualifier = 0 :=
  ⟨(unrecognized_tag_keeps stray_entry ⟨TAG_UNDEFINED, 7, 5⟩ (by decide) (by decide) (by decide)
      (by decide) (by decide) (by decide)).1,
    ((unrecognized_tag_keeps stray_entry ⟨TAG_UNDEFINED, 7, 5⟩ (by decide) (by decide) (by decide)
      (by decide) (by decide) (by decide)).2.1 (by decide) (by decide)).1,
    ((unrecognized_tag_keeps stray_entry ⟨TAG_UNDEFINED, 7, 5⟩ (by decide) (by decide) (by decide)
      (by decide) (by decide) (by decide)).2.1 (by decide) (by decide)).2⟩

/-- C4 (counterexample): for the same path and kind, `go_acl_get_file_impl` returns the same
value, NULL, when the native file-get call yields no object and when it yields an object whose
first `acl_get_entry` call fails. -/
theorem no_acl_counterexample :
    go_acl_convert_from_native zeroed broken_acl = none ∧
    go_acl_get_file_impl zeroed (fun _ _ => none) path_f .ACL_TYPE_ACCESS =
      go_acl_get_file_impl zeroed (fun _ _ => some broken_acl) path_f .ACL_TYPE_ACCESS ∧
    go_acl_get_file zeroed (fun _ _ => none) path_f =
      go_acl_get_file zeroed (fun _ _ => some broken_acl) path_f ∧
    go_acl_get_file_default zeroed (fun _ _ => none) path_f =
      go_acl_get_file_default zeroed (fun _ _ => some broken_acl) path_f := by
  decide

/-- C4 (amended): when the native file-get call yields no object, and when it yields an
object whose decoding fails, `go_acl_get_file_impl` returns the same value, NULL; so the two
outcomes are equal as returned values, for `go_acl_get_file` and `go_acl_get_file_default`
(which are `go_acl_get_file_impl` at the access and default kinds) as well. -/
theorem no_acl_same_as_failure (m : allocator)
    (get1 get2 : String → acl_type_t → Option acl_t) (path : String) (type : acl_type_t)
    (acl : acl_t) (h1 : get1 path type = none) (h2 : get2 path type = some acl)
    (hf : go_acl_convert_from_native m acl = none) :
    go_acl_get_file_impl m get1 path type = none ∧
    go_acl_get_file_impl m get2 path type = none ∧
    go_acl_get_file_impl m get1 path type = go_acl_get_file_impl m get2 path type ∧
    go_acl_get_file m get1 path = go_acl_get_file_impl m get1 path .ACL_TYPE_ACCESS ∧
    go_acl_get_file_default m get1 path = go_acl_get_file_impl m get1 path .ACL_TYPE_DEFAULT := by
  have a : go_acl_get_file_impl m get1 path type = none := by
    simp [go_acl_get_file_impl, h1]
  have b : go_acl_get_file_impl m get2 path type = none := by
    simp [go_acl_get_file_impl, h2, hf]
  exact ⟨a, b, by rw [a, b], rfl, rfl⟩

theorem no_acl_same_as_failure_witness :
    go_acl_get_file_impl zeroed (fun _ _ => none) path_f .ACL_TYPE_DEFAULT = none ∧
    go_acl_get_file_impl zeroed (fun _ _ => some broken_acl) path_f .ACL_TYPE_DEFAULT = none :=
  ⟨(no_acl_same_as_failure zeroed (fun _ _ => none) (fun _ _ => some broken_acl) path_f
      .ACL_TYPE_DEFAULT broken_acl rfl rfl (by decide)).1,
    (no_acl_same_as_failure zeroed (fun _ _ => none) (fun _ _ => some broken_acl) path_f
      .ACL_TYPE_DEFAULT broken_acl rfl rfl (by decide)).2.1⟩

/-- C7: decoding never returns a partial model.  (1) An entry decode returns a negative status
when reading the tag, fetching the permission set or testing read, write or execute returns a
negative status, or when the native tag is User or Group and the qualifier pointer is NULL.
(2) If a call of the counting pass returns a negative status, `go_acl_convert_from_native`
returns NULL.  (3) If in the fill pass the iteration call for a slot returns a negative status
or the entry decode for that slot does, it returns NULL.  (4) `go_acl_get_file_impl` then
returns NULL as well.  (5) When a model is returned, its count is the number counted, its
block has that many slots, and every slot holds the result of an entry decode that returned a
non-negative status after an iteration call that returned a non-negative status. -/
theorem decode_all_or_nothing (m : allocator) (acl : acl_t) :
    (∀ (entry : acl_entry_t) (s : go_acl_entry_t),
      (entry.tag_status < 0 ∨ entry.permset_status < 0 ∨ entry.perm_read < 0 ∨
        entry.perm_write < 0 ∨ entry.perm_execute < 0 ∨
        ((entry.tag = ACL_USER ∨ entry.tag = ACL_GROUP) ∧ entry.qualifier = none)) →
      (go_acl_convert_entry_from_native entry s).1 < 0) ∧
    (∀ k, (∀ j, j < k → 0 < (nth_result acl j).code) → (nth_result acl k).code < 0 →
      go_acl_convert_from_native m acl = none) ∧
    (∀ n rest g, count_entries acl 0 = some (n, rest) → m.entries = some g →
      ∀ i, i < n →
        ((nth_result rest i).code < 0 ∨
          (go_acl_convert_entry_from_native (nth_result rest i).entry (g i)).1 < 0) →
        go_acl_convert_from_native m acl = none) ∧
    (∀ (get : String → acl_type_t → Option acl_t) path type, get path type = some acl →
      go_acl_convert_from_native m acl = none → go_acl_get_file_impl m get path type = none) ∧
    (∀ a, go_acl_convert_from_native m acl = some a →
      ∃ n rest g, count_entries acl 0 = some (n, rest) ∧ m.entries = some g ∧
        a.num_entries = n ∧ a.entries.length = n ∧
        ∀ i, i < n → 0 ≤ (nth_result rest i).code ∧
          0 ≤ (go_acl_convert_entry_from_native (nth_result rest i).entry (g i)).1 ∧
          a.entries[i]? = some (go_acl_convert_entry_from_native (nth_result rest i).entry (g i)).2) := by
  refine ⟨fun entry s h => decode_status_neg entry s h, ?_, ?_, ?_, ?_⟩
  · intro k hpos hk
    unfold go_acl_convert_from_native
    rw [count_entries_neg acl k 0 hpos hk]
    split_ifs <;> rfl
  · intro n rest g hc hg i hi hfail
    apply convert_from_native_fill_none m acl n rest g hc hg
    have hi' : i < (fresh_block g n).length := by rw [fresh_block_length]; exact hi
    apply fill_spec_none (fresh_block g n) rest i hi'
    rw [fresh_block_get]
    exact hfail
  · intro get path type hget hnone
    simp [go_acl_get_file_impl, hget, hnone]
  · intro a ha
    obtain ⟨n, rest, g, _, hc, hg, hn, hf⟩ := convert_from_native_some m acl a ha
    obtain ⟨hl, hall⟩ := fill_spec_some (fresh_block g n) rest a.entries hf
    refine ⟨n, rest, g, hc, hg, hn, by rw [hl, fresh_block_length], ?_⟩
    intro i hi
    have hi' : i < (fresh_block g n).length := by rw [fresh_block_length]; exact hi
    have := hall i hi'
    rw [fresh_block_get] at this
    exact this

theorem decode_all_or_nothing_witness :
    go_acl_convert_from_native zeroed broken_acl = none ∧
    go_acl_convert_from_native zeroed
      [⟨1, other_entry⟩, ⟨0, acl_entry_null⟩, ⟨1, acl_entry_null⟩] = none :=
  ⟨(decode_all_or_nothing zeroed broken_acl).2.1 0 (by decide) (by decide),
    (decode_all_or_nothing zeroed [⟨1, other_entry⟩, ⟨0, acl_entry_null⟩, ⟨1, acl_entry_null⟩]).2.2.1
      1 [⟨1, acl_entry_null⟩] (fun _ => ⟨TAG_UNDEFINED, 0, 0⟩) (by decide) rfl 0 (by decide)
      (Or.inr (by decide))⟩

/-- C9: when the counting pass of `go_acl_convert_from_native` counted `n` entries and in the
fill pass the iteration call for a slot `i < n` reports "no more entries" (status 0),
`go_acl_convert_from_native` aborts and returns NULL.  The handle that call leaves is the NULL
handle; the entry decode attempted on it returns a negative status and writes nothing into the
slot, so no stale or absent entry is decoded into the remaining slots. -/
theorem count_mismatch_aborts (m : allocator) (acl : acl_t) (n : Nat) (rest : acl_t) (i : Nat)
    (hc : count_entries acl 0 = some (n, rest)) (hi : i < n)
    (h0 : (nth_result rest i).code = 0) :
    go_acl_convert_from_native m acl = none ∧
    (nth_result rest i).entry = acl_entry_null ∧
    (∀ slot, (go_acl_convert_entry_from_native (nth_result rest i).entry slot).1 < 0 ∧
      (go_acl_convert_entry_from_native (nth_result rest i).entry slot).2 = slot) := by
  have hnull : (nth_result rest i).entry = acl_entry_null := by
    rw [nth_result_zero rest i h0]
  refine ⟨?_, hnull, ?_⟩
  · cases hg : m.entries with
    | none =>
      unfold go_acl_convert_from_native
      simp only [hc, hg]
      split_ifs <;> rfl
    | some g =>
      apply convert_from_native_fill_none m acl n rest g hc hg
      have hi' : i < (fresh_block g n).length := by rw [fresh_block_length]; exact hi
      apply fill_spec_none (fresh_block g n) rest i hi'
      rw [hnull]
      exact Or.inr (decode_null _)
  · intro slot
    rw [hnull]
    exact ⟨decode_null slot, by simp [go_acl_convert_entry_from_native, acl_entry_null]⟩

theorem count_mismatch_aborts_witness :
    count_entries short_acl 0 = some (2, [⟨1, other_entry⟩, ⟨0, acl_entry_null⟩]) ∧
    (nth_result [⟨1, other_entry⟩, ⟨0, acl_entry_null⟩] 1).code = 0 ∧
    go_acl_convert_from_native zeroed short_acl = none :=
  ⟨by decide, by decide,
    (count_mismatch_aborts zeroed short_acl 2 [⟨1, other_entry⟩, ⟨0, acl_entry_null⟩] 1
      (by decide) (by decide) (by decide)).1⟩

/-! ## Entry converter: the claims -/

theorem perms_of_bits_test (r w x : Bool) :
    (Int.land (perms_of_bits r w x) 4 ≠ 0 ↔ r = true) ∧
    (Int.land (perms_of_bits r w x) 2 ≠ 0 ↔ w = true) ∧
    (Int.land (perms_of_bits r w x) 1 ≠ 0 ↔ x = true) := by
  cases r <;> cases w <;> cases x <;> decide

/-- C2: for every portable entry with one of the six real tags and perms in 0..7, every native
call and the allocation succeeding, `go_acl_convert_entry_to_native` into a fresh native entry
returns an allocation and leaves a native entry in which read is set exactly when bit 4 of
perms is, write exactly when bit 2 is and execute exactly when bit 1 is; decoding that entry
by `go_acl_convert_entry_from_native` returns status 0 and perms equal to the original.
Moreover every decode that returns a non-negative status yields perms within 0..7, with bit 4
set exactly when the read test was positive, bit 2 the write test and bit 1 the execute test. -/
theorem perms_round_trip (w : Nat) (c : entry_calls) (e : go_acl_entry_t) (h : heap)
    (slot : go_acl_entry_t) (hc : calls_succeed c) (ht : real_tag e.tag)
    (h0 : 0 ≤ e.perms) (h7 : e.perms ≤ 7) :
    (go_acl_convert_entry_to_native w c e acl_entry_fresh h).1 ≠ none ∧
    ((go_acl_convert_entry_to_native w c e acl_entry_fresh h).2.1.read = true ↔
      Int.land e.perms 4 ≠ 0) ∧
    ((go_acl_convert_entry_to_native w c e acl_entry_fresh h).2.1.write = true ↔
      Int.land e.perms 2 ≠ 0) ∧
    ((go_acl_convert_entry_to_native w c e acl_entry_fresh h).2.1.execute = true ↔
      Int.land e.perms 1 ≠ 0) ∧
    (go_acl_convert_entry_from_native
      (libacl_entry (go_acl_convert_entry_to_native w c e acl_entry_fresh h).2.1) slot).1 = 0 ∧
    (go_acl_convert_entry_from_native
      (libacl_entry (go_acl_convert_entry_to_native w c e acl_entry_fresh h).2.1) slot).2.perms =
        e.perms ∧
    (∀ (n : acl_entry_t) (s : go_acl_entry_t),
      0 ≤ (go_acl_convert_entry_from_native n s).1 →
        0 ≤ (go_acl_convert_entry_from_native n s).2.perms ∧
        (go_acl_convert_entry_from_native n s).2.perms ≤ 7 ∧
        (Int.land (go_acl_convert_entry_from_native n s).2.perms 4 ≠ 0 ↔ 0 < n.perm_read) ∧
        (Int.land (go_acl_convert_entry_from_native n s).2.perms 2 ≠ 0 ↔ 0 < n.perm_write) ∧
        (Int.land (go_acl_convert_entry_from_native n s).2.perms 1 ≠ 0 ↔ 0 < n.perm_execute)) := by
  rw [encode_entry_ok w c e h hc ht]
  simp only [decode_encoded w e h.next slot ht h0 h7]
  refine ⟨by simp, by simp [encoded_entry], by simp [encoded_entry], by simp [encoded_entry],
    trivial, trivial, ?_⟩
  intro n s hn
  obtain ⟨_, _, hp, _⟩ := decode_status_nonneg n s hn
  rw [hp]
  have hr := perms_of_bits_range (decide (0 < n.perm_read)) (decide (0 < n.perm_write))
    (decide (0 < n.perm_execute))
  have hb := perms_of_bits_test (decide (0 < n.perm_read)) (decide (0 < n.perm_write))
    (decide (0 < n.perm_execute))
  simp only [decide_eq_true_eq] at hb
  exact ⟨hr.1, hr.2, hb.1, hb.2.1, hb.2.2⟩

theorem perms_round_trip_witness :
    (go_acl_convert_entry_from_native
      (libacl_entry (go_acl_convert_entry_to_native 32 ok_calls ⟨TAG_MASK, 0, 5⟩
        acl_entry_fresh ⟨0, []⟩).2.1) ⟨TAG_UNDEFINED, 0, 0⟩).2.perms = 5 :=
  (perms_round_trip 32 ok_calls ⟨TAG_MASK, 0, 5⟩ ⟨0, []⟩ ⟨TAG_UNDEFINED, 0, 0⟩ (by decide)
    (by decide) (by decide) (by decide)).2.2.2.2.2.1

theorem encode_entry_no_qualifier (w : Nat) (c : entry_calls) (tag : go_acl_tag_t) (q : Nat)
    (p : Int) (entry : acl_entry_obj) (h : heap) (hu : tag ≠ TAG_USER) (hg : tag ≠ TAG_GROUP) :
    (go_acl_convert_entry_to_native w c ⟨tag, q, p⟩ entry h).2.1 =
      (go_acl_convert_entry_to_native w c ⟨tag, 0, p⟩ entry h).2.1 ∧
    (go_acl_convert_entry_to_native w c ⟨tag, q, p⟩ entry h).2.1.qualifier = entry.qualifier := by
  have hq : ∀ (st : Int) (o : acl_entry_obj) (t : acl_tag_t),
      (acl_set_tag_type st o t).2.qualifier = o.qualifier := by
    intro st o t
    unfold acl_set_tag_type
    split_ifs <;> rfl
  have hp : ∀ (b st : Int) (o : acl_entry_obj) (perm : acl_perm_t),
      (add_perm_if p b st o perm).2.qualifier = o.qualifier := by
    intro b st o perm
    unfold add_perm_if acl_add_perm
    cases perm <;> split_ifs <;> rfl
  have hs : (set_tag_switch c tag entry).2.qualifier = entry.qualifier := by
    unfold set_tag_switch
    split_ifs <;> first | exact hq _ _ _ | rfl
  simp only [go_acl_convert_entry_to_native, hu, hg, or_self, if_false]
  constructor
  · split_ifs <;> rfl
  · split_ifs <;> simp only [hp, hs]

/-- C3: for an entry whose tag is UserOwner, GroupOwner, Mask or Other and any two qualifier
values, `go_acl_convert_entry_to_native` into a fresh native entry leaves the same native entry
for both, with no qualifier installed, so decoding the two results gives the same status and the
same portable entry; when every native call and the allocation succeed that decode returns
status 0, the original tag and qualifier 0.  Moreover every decode that returns a non-negative
status and a tag other than User and Group yields qualifier 0. -/
theorem qualifier_irrelevant (w : Nat) (c : entry_calls) (tag : go_acl_tag_t) (p : Int)
    (q1 q2 : Nat) (h : heap) (slot : go_acl_entry_t)
    (ht : tag = TAG_USER_OBJ ∨ tag = TAG_GROUP_OBJ ∨ tag = TAG_MASK ∨ tag = TAG_OTHER) :
    (go_acl_convert_entry_to_native w c ⟨tag, q1, p⟩ acl_entry_fresh h).2.1 =
      (go_acl_convert_entry_to_native w c ⟨tag, q2, p⟩ acl_entry_fresh h).2.1 ∧
    (go_acl_convert_entry_to_native w c ⟨tag, q1, p⟩ acl_entry_fresh h).2.1.qualifier = none ∧
    go_acl_convert_entry_from_native
        (libacl_entry (go_acl_convert_entry_to_native w c ⟨tag, q1, p⟩ acl_entry_fresh h).2.1) slot =
      go_acl_convert_entry_from_native
        (libacl_entry (go_acl_convert_entry_to_native w c ⟨tag, q2, p⟩ acl_entry_fresh h).2.1) slot ∧
    (calls_succeed c →
      (go_acl_convert_entry_from_native
        (libacl_entry (go_acl_convert_entry_to_native w c ⟨tag, q1, p⟩ acl_entry_fresh h).2.1)
          slot).1 = 0 ∧
      (go_acl_convert_entry_from_native
        (libacl_entry (go_acl_convert_entry_to_native w c ⟨tag, q1, p⟩ acl_entry_fresh h).2.1)
          slot).2.tag = tag ∧
      (go_acl_convert_entry_from_native
        (libacl_entry (go_acl_convert_entry_to_native w c ⟨tag, q1, p⟩ acl_entry_fresh h).2.1)
          slot).2.qualifier = 0) ∧
    (∀ (n : acl_entry_t) (s : go_acl_entry_t),
      0 ≤ (go_acl_convert_entry_from_native n s).1 →
      (go_acl_convert_entry_from_native n s).2.tag ≠ TAG_USER →
      (go_acl_convert_entry_from_native n s).2.tag ≠ TAG_GROUP →
      (go_acl_convert_entry_from_native n s).2.qualifier = 0) := by
  have hu : tag ≠ TAG_USER := by
    rcases ht with ht | ht | ht | ht <;> rw [ht] <;> decide
  have hg : tag ≠ TAG_GROUP := by
    rcases ht with ht | ht | ht | ht <;> rw [ht] <;> decide
  have hreal : real_tag tag := by
    unfold real_tag
    rcases ht with ht | ht | ht | ht <;> simp [ht]
  have e1 := encode_entry_no_qualifier w c tag q1 p acl_entry_fresh h hu hg
  have e2 := encode_entry_no_qualifier w c tag q2 p acl_entry_fresh h hu hg
  have heq : (go_acl_convert_entry_to_native w c ⟨tag, q1, p⟩ acl_entry_fresh h).2.1 =
      (go_acl_convert_entry_to_native w c ⟨tag, q2, p⟩ acl_entry_fresh h).2.1 := by
    rw [e1.1, e2.1]
  refine ⟨heq, by rw [e1.2]; rfl, by rw [heq], ?_, ?_⟩
  · intro hc
    rw [encode_entry_ok w c ⟨tag, q1, p⟩ h hc hreal]
    rw [decode_view (encoded_entry w ⟨tag, q1, p⟩ h.next) slot tag hreal rfl]
    have hne : ¬ (tag = TAG_USER ∨ tag = TAG_GROUP) := by
      intro hh; rcases hh with hh | hh
      · exact hu hh
      · exact hg hh
    simp only [hne, if_false]
    exact ⟨trivial, trivial, trivial⟩
  · intro n s hn hnu hng
    exact (decode_status_nonneg n s hn).2.2.2 hnu hng

theorem qualifier_irrelevant_witness :
    go_acl_convert_entry_from_native
        (libacl_entry (go_acl_convert_entry_to_native 32 ok_calls ⟨TAG_OTHER, 1000, 4⟩
          acl_entry_fresh ⟨0, []⟩).2.1) ⟨TAG_UNDEFINED, 0, 0⟩ =
      go_acl_convert_entry_from_native
        (libacl_entry (go_acl_convert_entry_to_native 32 ok_calls ⟨TAG_OTHER, 2000, 4⟩
          acl_entry_fresh ⟨0, []⟩).2.1) ⟨TAG_UNDEFINED, 0, 0⟩ :=
  (qualifier_irrelevant 32 ok_calls TAG_OTHER 4 1000 2000 ⟨0, []⟩ ⟨TAG_UNDEFINED, 0, 0⟩
    (by decide)).2.2.1

/-! ## Encoder: auxiliary facts -/

theorem encode_entry_some (w : Nat) (c : entry_calls) (e : go_acl_entry_t) (entry : acl_entry_obj)
    (h : heap) (hs : (go_acl_convert_entry_to_native w c e entry h).1 ≠ none) :
    (go_acl_convert_entry_to_native w c e entry h).1 = some ⟨h.next, e.qualifier % 2 ^ w⟩ ∧
    (go_acl_convert_entry_to_native w c e entry h).2.2 = ⟨h.next + 1, h.trace⟩ := by
  unfold go_acl_convert_entry_to_native at hs ⊢
  simp only [] at hs ⊢
  by_cases h1 : (set_tag_switch c e.tag entry).1 < 0
  · rw [if_pos h1] at hs; exact absurd rfl hs
  rw [if_neg h1] at hs ⊢
  by_cases h2 : c.get_permset < 0
  · rw [if_pos h2] at hs; exact absurd rfl hs
  rw [if_neg h2] at hs ⊢
  generalize (set_tag_switch c e.tag entry).2 = o1 at hs ⊢
  by_cases h3 : (add_perm_if e.perms 4 c.add_read o1 .ACL_READ).1 < 0
  · rw [if_pos h3] at hs; exact absurd rfl hs
  rw [if_neg h3] at hs ⊢
  generalize (add_perm_if e.perms 4 c.add_read o1 .ACL_READ).2 = o2 at hs ⊢
  by_cases h4 : (add_perm_if e.perms 2 c.add_write o2 .ACL_WRITE).1 < 0
  · rw [if_pos h4] at hs; exact absurd rfl hs
  rw [if_neg h4] at hs ⊢
  generalize (add_perm_if e.perms 2 c.add_write o2 .ACL_WRITE).2 = o3 at hs ⊢
  by_cases h5 : (add_perm_if e.perms 1 c.add_execute o3 .ACL_EXECUTE).1 < 0
  · rw [if_pos h5] at hs; exact absurd rfl hs
  rw [if_neg h5] at hs ⊢
  generalize (add_perm_if e.perms 1 c.add_execute o3 .ACL_EXECUTE).2 = o4 at hs ⊢
  by_cases h6 : c.malloc_id = false
  · rw [if_pos h6] at hs; exact absurd rfl hs
  rw [if_neg h6] at hs ⊢
  by_cases h7 : e.tag = TAG_USER ∨ e.tag = TAG_GROUP
  · rw [if_pos h7] at hs ⊢
    by_cases h8 : (acl_set_qualifier c.set_qualifier o4 ⟨h.next, e.qualifier % 2 ^ w⟩).1 < 0
    · rw [if_pos h8] at hs; exact absurd rfl hs
    · rw [if_neg h8]; exact ⟨rfl, rfl⟩
  · rw [if_neg h7]; exact ⟨rfl, rfl⟩

theorem encode_entry_trace (w : Nat) (c : entry_calls) (e : go_acl_entry_t) (entry : acl_entry_obj)
    (h : heap) (ev : event) (hev : ev ∈ (go_acl_convert_entry_to_native w c e entry h).2.2.trace) :
    ev ∈ h.trace ∨ ∃ s, ev = .free s := by
  simp only [go_acl_convert_entry_to_native] at hev
  split_ifs at hev <;> first
    | exact Or.inl hev
    | (simp only [heap.emit, List.mem_append, List.mem_singleton] at hev
       rcases hev with hev | hev
       · exact Or.inl hev
       · exact Or.inr ⟨_, hev⟩)

theorem free_ids_loop_trace (ids : List id_slot) (i : Nat) :
    ∀ (j : Nat) (h : heap) (ev : event), ev ∈ (free_ids_loop ids i j h).trace →
      ev ∈ h.trace ∨ ∃ s, ev = .free s := by
  intro j
  induction j with
  | zero => intro h ev hev; exact Or.inl hev
  | succ j ih =>
    intro h ev hev
    simp only [free_ids_loop] at hev
    rcases ih _ ev hev with h1 | h1
    · simp only [heap.emit, List.mem_append, List.mem_singleton] at h1
      rcases h1 with h1 | h1
      · exact Or.inl h1
      · exact Or.inr ⟨_, h1⟩
    · exact Or.inr h1

theorem free_ids_loop_eq (ids : List id_slot) (i : Nat) :
    ∀ (j : Nat) (h : heap), free_ids_loop ids i j h =
      ⟨h.next, h.trace ++ List.replicate j (.free (ids.getD i .unassigned))⟩ := by
  intro j
  induction j with
  | zero => intro h; simp [free_ids_loop]
  | succ j ih =>
    intro h
    simp only [free_ids_loop, ih, heap.emit, List.replicate_succ, List.append_assoc,
      List.singleton_append]

theorem convert_entries_trace (lib : libacl) (es : List go_acl_entry_t) :
    ∀ (i : Nat) (acl : List acl_entry_obj) (ids : List id_slot) (h : heap) (ev : event),
      ev ∈ (convert_entries lib es i acl ids h).2.2.trace →
      ev ∈ h.trace ∨ ev = .acl_free ∨ ∃ s, ev = .free s := by
  induction es with
  | nil => intro i acl ids h ev hev; exact Or.inl hev
  | cons e es ih =>
    intro i acl ids h ev hev
    simp only [convert_entries] at hev
    by_cases h1 : (lib.calls i).create_entry < 0
    · simp only [h1, if_true, heap.emit, List.mem_append, List.mem_singleton] at hev
      rcases hev with hev | hev
      · rcases free_ids_loop_trace ids i i h ev hev with h2 | h2
        · exact Or.inl h2
        · exact Or.inr (Or.inr h2)
      · exact Or.inr (Or.inl hev)
    · simp only [h1, if_false] at hev
      have step : ∀ ev, ev ∈ (go_acl_convert_entry_to_native lib.id_bits (lib.calls i) e
          acl_entry_fresh h).2.2.trace → ev ∈ h.trace ∨ ev = .acl_free ∨ ∃ s, ev = .free s := by
        intro ev hev
        rcases encode_entry_trace _ _ _ _ _ ev hev with h2 | h2
        · exact Or.inl h2
        · exact Or.inr (Or.inr h2)
      by_cases h2 : (go_acl_convert_entry_to_native lib.id_bits (lib.calls i) e
          acl_entry_fresh h).1 = none
      · simp only [h2, if_true, heap.emit, List.mem_append, List.mem_singleton] at hev
        rcases hev with hev | hev
        · rcases free_ids_loop_trace _ i i _ ev hev with h3 | h3
          · exact step ev h3
          · exact Or.inr (Or.inr h3)
        · exact Or.inr (Or.inl hev)
      · simp only [h2, if_false] at hev
        rcases ih _ _ _ _ ev hev with h3 | h3
        · exact step ev h3
        · exact Or.inr h3

theorem convert_entries_some (lib : libacl) (es : List go_acl_entry_t) :
    ∀ (i : Nat) (acl : List acl_entry_obj) (ids : List id_slot) (h : heap),
      (convert_entries lib es i acl ids h).1 ≠ none →
      (convert_entries lib es i acl ids h).2.1 = assigned_ids lib.id_bits es h.next i ids ∧
      (convert_entries lib es i acl ids h).2.2 = ⟨h.next + es.length, h.trace⟩ := by
  induction es with
  | nil => intro i acl ids h _; exact ⟨rfl, rfl⟩
  | cons e es ih =>
    intro i acl ids h hs
    simp only [convert_entries] at hs ⊢
    by_cases h1 : (lib.calls i).create_entry < 0
    · simp [h1] at hs
    simp only [h1, if_false] at hs ⊢
    by_cases h2 : (go_acl_convert_entry_to_native lib.id_bits (lib.calls i) e
        acl_entry_fresh h).1 = none
    · simp [h2] at hs
    simp only [h2, if_false] at hs ⊢
    obtain ⟨hid, hh⟩ := encode_entry_some _ _ _ _ _ h2
    obtain ⟨r1, r2⟩ := ih _ _ _ _ hs
    rw [r1, r2, hh, hid]
    simp only [assigned_ids, List.length_cons, true_and]
    congr 1
    omega

theorem convert_entries_ok (lib : libacl) (es : List go_acl_entry_t)
    (hcalls : ∀ i, calls_succeed (lib.calls i)) :
    ∀ (i : Nat) (acl : List acl_entry_obj) (ids : List id_slot) (h : heap),
      (∀ e ∈ es, real_tag e.tag) →
      (convert_entries lib es i acl ids h).1 =
        some (acl ++ encoded_entries lib.id_bits es h.next) := by
  induction es with
  | nil => intro i acl ids h _; simp [convert_entries, encoded_entries]
  | cons e es ih =>
    intro i acl ids h hreal
    have hc := hcalls i
    have h1 : ¬ (lib.calls i).create_entry < 0 := not_lt_zero_of_nonneg hc.1
    simp only [convert_entries, h1, if_false,
      encode_entry_ok lib.id_bits (lib.calls i) e h hc (hreal e (by simp))]
    simp only [reduceCtorEq, if_false]
    rw [ih _ _ _ _ (fun x hx => hreal x (by simp [hx]))]
    simp [encoded_entries]

theorem assigned_ids_length (w : Nat) (es : List go_acl_entry_t) :
    ∀ (a i : Nat) (ids : List id_slot), (assigned_ids w es a i ids).length = ids.length := by
  induction es with
  | nil => intro a i ids; rfl
  | cons e es ih => intro a i ids; simp [assigned_ids, ih]

theorem assigned_ids_before (w : Nat) (es : List go_acl_entry_t) :
    ∀ (a i : Nat) (ids : List id_slot) (j : Nat), j < i →
      (assigned_ids w es a i ids)[j]? = ids[j]? := by
  induction es with
  | nil => intro a i ids j _; rfl
  | cons e es ih =>
    intro a i ids j hj
    simp only [assigned_ids]
    rw [ih _ _ _ j (by omega), List.getElem?_set_ne (by omega)]

theorem free_all_ids_assigned (w : Nat) (es : List go_acl_entry_t) :
    ∀ (a i : Nat) (ids : List id_slot) (h : heap), i + es.length ≤ ids.length →
      free_all_ids (assigned_ids w es a i ids) es.length i h =
        ⟨h.next, h.trace ++ free_events w es a⟩ := by
  induction es with
  | nil => intro a i ids h _; simp [free_all_ids, free_events]
  | cons e es ih =>
    intro a i ids h hlen
    simp only [List.length_cons] at hlen
    have hget : (assigned_ids w (e :: es) a i ids).getD i .unassigned =
        .ptr (some ⟨a, e.qualifier % 2 ^ w⟩) := by
      simp only [assigned_ids, List.getD_eq_getElem?_getD]
      rw [assigned_ids_before w es (a + 1) (i + 1) _ i (by omega)]
      rw [List.getElem?_set_self (by omega)]
      rfl
    simp only [List.length_cons, free_all_ids, hget]
    simp only [assigned_ids]
    rw [ih (a + 1) (i + 1) _ _ (by simp; omega)]
    simp [heap.emit, free_events]

theorem free_events_addr (w : Nat) (es : List go_acl_entry_t) :
    ∀ (a b v : Nat), event.free (.ptr (some ⟨b, v⟩)) ∈ free_events w es a → a ≤ b := by
  induction es with
  | nil => intro a b v h; simp [free_events] at h
  | cons e es ih =>
    intro a b v h
    simp only [free_events, List.mem_cons, event.free.injEq, id_slot.ptr.injEq,
      Option.some.injEq, id_cell.mk.injEq] at h
    rcases h with h | h
    · omega
    · have := ih _ _ _ h; omega

theorem free_events_nodup (w : Nat) (es : List go_acl_entry_t) :
    ∀ (a : Nat), (free_events w es a).Nodup := by
  induction es with
  | nil => intro a; simp [free_events]
  | cons e es ih =>
    intro a
    simp only [free_events, List.nodup_cons]
    refine ⟨?_, ih _⟩
    intro hmem
    have := free_events_addr w es (a + 1) a _ hmem
    omega

theorem free_events_length (w : Nat) (es : List go_acl_entry_t) :
    ∀ (a : Nat), (free_events w es a).length = es.length := by
  induction es with
  | nil => intro a; rfl
  | cons e es ih => intro a; simp [free_events, ih]

theorem count_entries_iterate (objs : List acl_entry_obj) (rest : acl_t) (x : acl_entry_t) :
    ∀ (k : Nat), count_entries
        (objs.map (fun o => ⟨1, libacl_entry o⟩) ++ (⟨0, x⟩ :: rest)) k =
      some (k + objs.length, rest) := by
  induction objs with
  | nil => intro k; simp [count_entries]
  | cons o objs ih =>
    intro k
    have e0 : ¬ ((⟨1, libacl_entry o⟩ : get_entry_result).code = 0) := by
      show ¬ ((1 : Int) = 0); decide
    have e1 : ¬ ((⟨1, libacl_entry o⟩ : get_entry_result).code < 0) := by
      show ¬ ((1 : Int) < 0); decide
    rw [List.map_cons, List.cons_append, count_entries, if_neg e0, if_neg e1, ih,
      List.length_cons]
    simp only [Option.some.injEq, Prod.mk.injEq, and_true]
    omega

theorem fill_spec_encoded (w : Nat) (es : List go_acl_entry_t) :
    ∀ (a : Nat) (todo : List go_acl_entry_t), todo.length = es.length →
      (∀ e ∈ es, real_tag e.tag ∧ 0 ≤ e.perms ∧ e.perms ≤ 7 ∧
        ((e.tag = TAG_USER ∨ e.tag = TAG_GROUP) → e.qualifier < 2 ^ w)) →
      fill_spec ((encoded_entries w es a).map (fun o => ⟨1, libacl_entry o⟩)) todo =
        some (es.map normalize) := by
  induction es with
  | nil =>
    intro a todo hlen _
    have : todo = [] := List.length_eq_zero.mp hlen
    subst this
    simp [fill_spec]
  | cons e es ih =>
    intro a todo hlen hes
    cases todo with
    | nil => simp at hlen
    | cons slot slots =>
      obtain ⟨ht, h0, h7, hq⟩ := hes e (by simp)
      have e1 : ¬ ((1 : Int) = 0) := by decide
      simp only [encoded_entries, List.map_cons, fill_spec, acl_get_entry, e1, if_false,
        decode_encoded w e a slot ht h0 h7]
      rw [ih (a + 1) slots (by simpa using hlen) (fun x hx => hes x (by simp [hx]))]
      have hn : (⟨e.tag, if e.tag = TAG_USER ∨ e.tag = TAG_GROUP then e.qualifier % 2 ^ w else 0,
          e.perms⟩ : go_acl_entry_t) = normalize e := by
        unfold normalize
        by_cases hug : e.tag = TAG_USER ∨ e.tag = TAG_GROUP
        · simp only [hug, if_true, Nat.mod_eq_of_lt (hq hug)]
        · simp only [hug, if_false]
      rw [hn]
      simp

theorem free_all_ids_eq (ids : List id_slot) :
    ∀ (k i : Nat) (h : heap), free_all_ids ids k i h =
      ⟨h.next, h.trace ++ (List.range' i k).map (fun j => .free (ids.getD j .unassigned))⟩ := by
  intro k
  induction k with
  | zero => intro i h; simp [free_all_ids]
  | succ k ih =>
    intro i h
    simp only [free_all_ids, ih, heap.emit, List.range'_succ, List.map_cons, List.append_assoc,
      List.singleton_append]

/-! ## ACL converter and file operations: the claims -/

/-- C1 (counterexample): on Linux, where `id_t` has 32 bits, every call and allocation
succeeding, the ACL of the single entry (User, 4294967296, 6) has a real tag and perms within
0..7, yet encoding it and decoding the result yields the entry (User, 0, 6): the qualifier is
not the original one. -/
theorem round_trip_counterexample :
    (∀ e ∈ [(⟨TAG_USER, 4294967296, 6⟩ : go_acl_entry_t)],
      real_tag e.tag ∧ 0 ≤ e.perms ∧ e.perms ≤ 7) ∧
    (∀ i, i < 1 → calls_succeed (linux_ok.calls i)) ∧
    (go_acl_convert_to_native linux_ok ⟨1, [⟨TAG_USER, 4294967296, 6⟩]⟩ [.unassigned] ⟨0, []⟩).1 =
      some [⟨ACL_USER, true, true, false, some ⟨0, 0⟩⟩] ∧
    go_acl_convert_from_native zeroed (libacl_iterate [⟨ACL_USER, true, true, false, some ⟨0, 0⟩⟩]) =
      some ⟨1, [⟨TAG_USER, 0, 6⟩]⟩ ∧
    go_acl_convert_from_native zeroed (libacl_iterate [⟨ACL_USER, true, true, false, some ⟨0, 0⟩⟩]) ≠
      some ⟨1, [⟨TAG_USER, 4294967296, 6⟩]⟩ := by
  decide

/-- C1 (amended): for every portable ACL whose entries all have one of the six real tags,
perms within 0..7 and, when the tag is User or Group, a qualifier that fits `id_t`
(below 2 ^ id_bits), under a library in which every native call and allocation succeeds and
iteration yields the created entries in creation order, `go_acl_convert_to_native` returns a
native object and `go_acl_convert_from_native` of that object returns a model with the same
count and, index by index in the same order, the same tag, perms and qualifier, the qualifier
of an entry whose tag is neither User nor Group being 0. -/
theorem round_trip (lib : libacl) (m : allocator) (es : List go_acl_entry_t)
    (ids : List id_slot) (h : heap) (hinit : lib.acl_init = true)
    (hcalls : ∀ i, calls_succeed (lib.calls i)) (hm : m.go_acl = true)
    (hme : m.entries ≠ none)
    (hes : ∀ e ∈ es, real_tag e.tag ∧ 0 ≤ e.perms ∧ e.perms ≤ 7 ∧
      ((e.tag = TAG_USER ∨ e.tag = TAG_GROUP) → e.qualifier < 2 ^ lib.id_bits)) :
    ∃ acl, (go_acl_convert_to_native lib ⟨es.length, es⟩ ids h).1 = some acl ∧
      go_acl_convert_from_native m (libacl_iterate acl) = some ⟨es.length, es.map normalize⟩ := by
  refine ⟨encoded_entries lib.id_bits es h.next, ?_, ?_⟩
  · simp only [go_acl_convert_to_native, hinit, Bool.true_eq_false, if_false, List.take_length]
    rw [convert_entries_ok lib es hcalls 0 [] ids h (fun e he => (hes e he).1)]
    simp
  · cases hg : m.entries with
    | none => exact absurd hg hme
    | some g =>
      have hlen : (encoded_entries lib.id_bits es h.next).length = es.length := by
        clear hes
        generalize h.next = a
        induction es generalizing a with
        | nil => rfl
        | cons e es ih => simp [encoded_entries, ih]
      have hc : count_entries (libacl_iterate (encoded_entries lib.id_bits es h.next)) 0 =
          some (es.length,
            (encoded_entries lib.id_bits es h.next).map (fun o => ⟨1, libacl_entry o⟩)) := by
        unfold libacl_iterate
        rw [List.append_assoc, List.singleton_append, count_entries_iterate, hlen, Nat.zero_add]
      apply convert_from_native_ok m _ es.length _ g (es.map normalize) hm hc hg
      exact fill_spec_encoded lib.id_bits es h.next (fresh_block g es.length)
        (fresh_block_length g es.length) hes

theorem round_trip_witness :
    ∃ acl, (go_acl_convert_to_native linux_ok ⟨scenario_acl.length, scenario_acl⟩
        (List.replicate 3 .unassigned) ⟨0, []⟩).1 = some acl ∧
      go_acl_convert_from_native zeroed (libacl_iterate acl) =
        some ⟨scenario_acl.length, scenario_acl.map normalize⟩ :=
  round_trip linux_ok zeroed scenario_acl (List.replicate 3 .unassigned) ⟨0, []⟩ rfl
    (fun _ => (by decide : calls_succeed ok_calls)) rfl (by simp [zeroed]) (by decide)

/-- C5 (the code at the failing input): encoding an ACL of two entries fails at entry 1.
When `acl_create_entry` fails there, the cleanup frees once the never-assigned slot `ids[1]`;
when `go_acl_convert_entry_to_native` returns NULL there, it frees once the NULL just stored in
`ids[1]`.  In both runs the allocation held by `ids[0]` is never freed; the native object is
released once and NULL is returned. -/
theorem cleanup_frees_wrong_slot :
    go_acl_convert_to_native create_fails_at_1 two_entries [.unassigned, .unassigned] ⟨0, []⟩ =
      (none, [.ptr (some ⟨0, 0⟩), .unassigned], ⟨1, [.free .unassigned, .acl_free]⟩) ∧
    go_acl_convert_to_native set_tag_fails_at_1 two_entries [.unassigned, .unassigned] ⟨0, []⟩ =
      (none, [.ptr (some ⟨0, 0⟩), .ptr none], ⟨1, [.free (.ptr none), .acl_free]⟩) ∧
    event.free (.ptr (some ⟨0, 0⟩)) ∉
      (go_acl_convert_to_native create_fails_at_1 two_entries [.unassigned, .unassigned]
        ⟨0, []⟩).2.2.trace ∧
    event.free (.ptr (some ⟨0, 0⟩)) ∉
      (go_acl_convert_to_native set_tag_fails_at_1 two_entries [.unassigned, .unassigned]
        ⟨0, []⟩).2.2.trace := by
  decide

/-- C8: for every portable ACL of `n` entries.  (1) When its encoding succeeds, for every status
`code` returned by the native install call, `go_acl_set_file_impl` returns exactly `code` and the
events it adds are, in order: the install call, one release of the native object, one free of
each of the `n` allocations, which are the contents of `ids[0]`, ..., `ids[n-1]` and pairwise
distinct, then the free of the `ids` array.  (2) When the `ids` array cannot be allocated it
returns -1 and adds no event.  (3) When the encoding fails it returns -1 without an install
call. -/
theorem set_file_releases (lib : libacl) (es : List go_acl_entry_t) (code : Int) (h : heap) :
    ((go_acl_convert_to_native lib ⟨es.length, es⟩
        (List.replicate es.length .unassigned) h).1 ≠ none →
      go_acl_set_file_impl lib true code ⟨es.length, es⟩ h =
        (code, ⟨h.next + es.length,
          h.trace ++ [.acl_set_file, .acl_free] ++ free_events lib.id_bits es h.next ++
            [.free_ids]⟩) ∧
      free_events lib.id_bits es h.next =
        (List.range' 0 es.length).map (fun i => .free
          ((go_acl_convert_to_native lib ⟨es.length, es⟩
            (List.replicate es.length .unassigned) h).2.1.getD i .unassigned)) ∧
      (free_events lib.id_bits es h.next).Nodup ∧
      (free_events lib.id_bits es h.next).length = es.length) ∧
    go_acl_set_file_impl lib false code ⟨es.length, es⟩ h = (-1, h) ∧
    ((go_acl_convert_to_native lib ⟨es.length, es⟩
        (List.replicate es.length .unassigned) h).1 = none →
      (go_acl_set_file_impl lib true code ⟨es.length, es⟩ h).1 = -1 ∧
      (event.acl_set_file ∈ (go_acl_set_file_impl lib true code ⟨es.length, es⟩ h).2.trace →
        event.acl_set_file ∈ h.trace)) := by
  refine ⟨?_, ?_, ?_⟩
  · intro hs
    have hinit : lib.acl_init ≠ false := by
      intro hi
      simp [go_acl_convert_to_native, hi] at hs
    have hconv : go_acl_convert_to_native lib ⟨es.length, es⟩
        (List.replicate es.length .unassigned) h =
        convert_entries lib es 0 [] (List.replicate es.length .unassigned) h := by
      simp [go_acl_convert_to_native, hinit]
    rw [hconv] at hs
    obtain ⟨hids, hheap⟩ := convert_entries_some lib es 0 [] _ h hs
    have hfree := free_all_ids_assigned lib.id_bits es h.next 0
      (List.replicate es.length .unassigned)
      ⟨h.next + es.length, h.trace ++ [.acl_set_file, .acl_free]⟩ (by simp)
    have hfree2 := free_all_ids_eq
      (assigned_ids lib.id_bits es h.next 0 (List.replicate es.length .unassigned)) es.length 0
      ⟨h.next + es.length, h.trace ++ [.acl_set_file, .acl_free]⟩
    rw [hfree] at hfree2
    have hev : free_events lib.id_bits es h.next =
        (List.range' 0 es.length).map (fun i => .free
          ((assigned_ids lib.id_bits es h.next 0
            (List.replicate es.length .unassigned)).getD i .unassigned)) := by
      have := congrArg heap.trace hfree2
      exact List.append_cancel_left this
    refine ⟨?_, ?_, free_events_nodup _ _ _, free_events_length _ _ _⟩
    · cases hr : (convert_entries lib es 0 [] (List.replicate es.length .unassigned) h).1 with
      | none => exact absurd hr hs
      | some acl =>
        simp only [go_acl_set_file_impl, hconv, hr, hids, hheap, heap.emit, Bool.true_eq_false,
          if_false, List.append_assoc, List.singleton_append]
        have hfree' := hfree
        simp only [List.append_assoc, List.singleton_append] at hfree'
        rw [hfree']
        simp
    · rw [hconv, hids]
      exact hev
  · simp [go_acl_set_file_impl]
  · intro hn
    simp only [go_acl_set_file_impl, hn, Bool.true_eq_false, if_false, heap.emit,
      List.mem_append, List.mem_singleton, reduceCtorEq, or_false, true_and]
    intro hmem
    by_cases hi : lib.acl_init = false
    · simpa [go_acl_convert_to_native, hi] using hmem
    · have hconv : go_acl_convert_to_native lib ⟨es.length, es⟩
          (List.replicate es.length .unassigned) h =
          convert_entries lib es 0 [] (List.replicate es.length .unassigned) h := by
        simp [go_acl_convert_to_native, hi]
      rw [hconv] at hmem
      rcases convert_entries_trace lib es 0 [] _ h _ hmem with h1 | h1 | ⟨s, h1⟩
      · exact h1
      · exact absurd h1 (by decide)
      · exact absurd h1 (by simp)

theorem set_file_releases_witness :
    go_acl_set_file_impl linux_ok true (-1) ⟨scenario_acl.length, scenario_acl⟩ ⟨0, []⟩ =
      (-1, ⟨0 + scenario_acl.length,
        [] ++ [.acl_set_file, .acl_free] ++ free_events 32 scenario_acl 0 ++ [.free_ids]⟩) :=
  ((set_file_releases linux_ok scenario_acl (-1) ⟨0, []⟩).1 (by decide)).1

end GoAcl
